import Mathlib

/-!
Verification of the TNG-Tools download/split/catalog pipeline
(`tng_tools/split.py`), via a shallow embedding of its data model and
algorithms in Lean.

Conventions of the embedding:
* Python strings are `String`; values that may be `None` are `Option _`.
* Python floats are modelled as `ℚ`; the float values that occur in the
  merger CSVs are decimal literals, which the model's decimal parser
  `pyFloat` maps to the corresponding rational (Python's `float()` also
  accepts exponents, `inf`/`nan` and surrounding whitespace, which are
  outside this model).
* Astropy tables are `PTable`: a column-name list plus a list of rows,
  each row a list of cell `Value`s positionally aligned with the names.
* Filesystem and network effects are made explicit: directory scans take
  the list of file names present, downloads take an oracle giving the
  outcome of each attempt, and the pipeline returns the list of write
  events it would perform.
-/

/-- A cell value of an astropy table column, as used by the catalog:
integers (`i4`/`i8`), strings (`U8`/`U64`/`U256`), booleans and floats
(`f8`, modelled as `ℚ`). -/
inductive Value : Type
  | int (i : ℤ)
  | str (s : String)
  | bool (b : Bool)
  | float (q : ℚ)
deriving DecidableEq, Repr

/-- Python `str()` applied to a table cell.  The pipeline only ever
applies it to string cells (the `filename` column), where it is the
identity; the other branches give a plain rendering. -/
def pyStr : Value → String
  | .str s => s
  | .int i => toString i
  | .bool b => if b then "True" else "False"
  | .float q => toString q

/-- Split a character list into its maximal digit prefix and the rest. -/
def spanDigits (cs : List Char) : List Char × List Char :=
  (cs.takeWhile Char.isDigit, cs.dropWhile Char.isDigit)

/-- Value of a list of decimal digit characters, most significant first. -/
def decDigitsVal (cs : List Char) : ℕ :=
  cs.foldl (fun a c => a * 10 + (c.toNat - 48)) 0

/-- Parse an unsigned decimal literal (`123`, `123.45`, `.5`, `5.`),
the forms Python's `float()` accepts without sign/exponent. -/
def parseUnsignedFloat (cs : List Char) : Option ℚ :=
  let (ip, r) := spanDigits cs
  match r with
  | [] => if ip = [] then none else some (decDigitsVal ip)
  | '.' :: fr =>
    let (fp, r2) := spanDigits fr
    if r2 = [] ∧ (ip ≠ [] ∨ fp ≠ []) then
      some ((decDigitsVal ip : ℚ) + (decDigitsVal fp : ℚ) / 10 ^ fp.length)
    else none
  | _ => none

/-- Model of Python `float(s)` on decimal literals: an optional sign
followed by an unsigned decimal.  Returns `none` where Python raises
`ValueError`. -/
def pyFloat (s : String) : Option ℚ :=
  match s.data with
  | '-' :: rest => (parseUnsignedFloat rest).map Neg.neg
  | '+' :: rest => parseUnsignedFloat rest
  | cs => parseUnsignedFloat cs

/-- Python `int()` applied to a float: truncation toward zero
(`int(2.7) == 2`, `int(-2.7) == -2`). -/
def pyTrunc (q : ℚ) : ℤ :=
  if 0 ≤ q then ⌊q⌋ else ⌈q⌉

/-- `_safe_int(value, default)` from split.py: `int(float(value))` with
`TypeError`/`ValueError` (a `None` value or an unparseable string)
mapped to the default. -/
def safe_int (value : Option String) (default : ℤ) : ℤ :=
  match value with
  | none => default
  | some s =>
    match pyFloat s with
    | some q => pyTrunc q
    | none => default

/-- `_safe_float(value, default)` from split.py: `float(value)` with
`TypeError`/`ValueError` mapped to the default. -/
def safe_float (value : Option String) (default : ℚ) : ℚ :=
  match value with
  | none => default
  | some s => (pyFloat s).getD default

/-- Decimal rendering of a natural number, as Python `str(int)`
produces: no sign, no leading zeros. -/
def natDecimal (n : ℕ) : List Char :=
  if h : n < 10 then [Char.ofNat (48 + n)]
  else natDecimal (n / 10) ++ [Char.ofNat (48 + n % 10)]
decreasing_by exact Nat.div_lt_self (by omega) (by omega)

/-- The structured groups extracted by `SPLIT_FILENAME_RE`:
`(?P<sim>\d+)_(?P<snapshot>\d+)_(?P<subhalo>\d+)_(?P<filter>[A-Za-z])_(?P<version>v\d+|v\?)_hsc_realistic\.fits`. -/
structure SplitNameGroups where
  sim : String
  snapshot : String
  subhalo : String
  filter : String
deriving DecidableEq, Repr

/-- The tail every split filename ends with, after the version group. -/
def splitNameTail : List Char := "_hsc_realistic.fits".data

/-- Matcher for the anchored `SPLIT_FILENAME_RE` over the characters of a
filename.  The regex is deterministic (each `\d+` is followed by a
non-digit), so a straight-line scan is equivalent to it.  Python's `$`
also accepts one trailing newline, which `tailMatches` mirrors. -/
def tailMatches (cs : List Char) : Bool :=
  cs = splitNameTail ∨ cs = splitNameTail ++ ['\n']

def parseSplitChars (cs : List Char) : Option SplitNameGroups :=
  let (d1, r1) := spanDigits cs
  if d1 = [] then none else
  match r1 with
  | '_' :: r2 =>
    let (d2, r3) := spanDigits r2
    if d2 = [] then none else
    match r3 with
    | '_' :: r4 =>
      let (d3, r5) := spanDigits r4
      if d3 = [] then none else
      match r5 with
      | '_' :: f :: '_' :: 'v' :: r6 =>
        if ¬ f.isAlpha then none else
        -- the regex alternation `v\d+|v\?` is decided by the character
        -- after `v`: `?` takes the second branch, a digit the first
        match r6 with
        | [] => none
        | c :: rest =>
          if c = '?' then
            if tailMatches rest then
              some ⟨⟨d1⟩, ⟨d2⟩, ⟨d3⟩, ⟨[f]⟩⟩
            else none
          else
            let (dv, r7) := spanDigits (c :: rest)
            if dv = [] then none else
            if tailMatches r7 then
              some ⟨⟨d1⟩, ⟨d2⟩, ⟨d3⟩, ⟨[f]⟩⟩
            else none
      | _ => none
    | _ => none
  | _ => none

/-- `_parse_split_filename` from split.py: match the anchored pattern,
returning the named groups, or `none` (never an error) on no match. -/
def parse_split_filename (filename : String) : Option SplitNameGroups :=
  parseSplitChars filename.data

/-- The split-output naming convention of the pipeline
(`out_name = f'{sim}_{snapshot}_{subhalo}_{filt}_{version}_hsc_realistic.fits'`,
split.py line 628), for numeric identifiers. -/
def format_split_filename (sim snapshot subhalo : ℕ) (filt : Char) (version : String) : String :=
  ⟨natDecimal sim⟩ ++ "_" ++ ⟨natDecimal snapshot⟩ ++ "_" ++ ⟨natDecimal subhalo⟩ ++ "_"
    ++ ⟨[filt]⟩ ++ "_" ++ version ++ "_hsc_realistic.fits"

/-- A version token as the regex admits it: `v` followed by digits, or
the literal `v?` used when no version was parsed from the source URL. -/
def version_token_ok (v : String) : Bool :=
  match v.data with
  | c :: rest => c = 'v' ∧ (rest = ['?'] ∨ (rest ≠ [] ∧ rest.all Char.isDigit))
  | [] => false

section CodecLemmas

/-- Scratch check that the matcher behaves like the regex on the
documented example. -/
example : parse_split_filename "50_72_0_G_v2_hsc_realistic.fits"
    = some ⟨"50", "72", "0", "G"⟩ := by decide

example : parse_split_filename "50_72_0_G_v?_hsc_realistic.fits"
    = some ⟨"50", "72", "0", "G"⟩ := by decide

example : parse_split_filename "ignore_me.fits" = none := by decide

theorem spanDigits_append {ds r : List Char} (hds : ∀ c ∈ ds, c.isDigit = true)
    (hr : ∀ c, r.head? = some c → c.isDigit = false) :
    spanDigits (ds ++ r) = (ds, r) := by
  induction ds with
  | nil =>
    simp only [List.nil_append, spanDigits]
    cases r with
    | nil => simp
    | cons c cs =>
      have := hr c rfl
      simp [List.takeWhile, List.dropWhile, this]
  | cons d ds ih =>
    have hd : d.isDigit = true := hds d (by simp)
    have ih' := ih (fun c hc => hds c (by simp [hc]))
    simp only [spanDigits, List.cons_append, List.takeWhile, List.dropWhile, hd] at *
    obtain ⟨h1, h2⟩ := Prod.mk.injEq .. ▸ ih'
    simp_all [spanDigits]

theorem natDecimal_ne_nil (n : ℕ) : natDecimal n ≠ [] := by
  rw [natDecimal]
  split <;> simp

theorem char_ofNat_digit {d : ℕ} (h : d < 10) :
    (Char.ofNat (48 + d)).isDigit = true := by
  interval_cases d <;> decide

theorem char_ofNat_toNat {d : ℕ} (h : d < 10) :
    (Char.ofNat (48 + d)).toNat = 48 + d := by
  interval_cases d <;> decide

theorem natDecimal_all_digit (n : ℕ) : ∀ c ∈ natDecimal n, c.isDigit = true := by
  induction n using Nat.strong_induction_on with
  | _ n ih =>
    rw [natDecimal]
    split
    · intro c hc
      simp only [List.mem_singleton] at hc
      subst hc
      exact char_ofNat_digit (by omega)
    · intro c hc
      rw [List.mem_append] at hc
      rcases hc with hc | hc
      · exact ih (n / 10) (Nat.div_lt_self (by omega) (by omega)) c hc
      · simp only [List.mem_singleton] at hc
        subst hc
        exact char_ofNat_digit (Nat.mod_lt _ (by omega))

theorem decDigitsVal_append (l : List Char) (c : Char) :
    decDigitsVal (l ++ [c]) = decDigitsVal l * 10 + (c.toNat - 48) := by
  simp [decDigitsVal, List.foldl_append]

theorem decDigitsVal_natDecimal (n : ℕ) : decDigitsVal (natDecimal n) = n := by
  induction n using Nat.strong_induction_on with
  | _ n ih =>
    rw [natDecimal]
    split
    · next h =>
      simp [decDigitsVal, char_ofNat_toNat h]
    · next h =>
      rw [decDigitsVal_append, ih (n / 10) (Nat.div_lt_self (by omega) (by omega)),
        char_ofNat_toNat (Nat.mod_lt _ (by omega))]
      omega

end CodecLemmas

section RoundTrip

theorem head_underscore_not_digit (l : List Char) :
    ∀ c, (('_' :: l).head? = some c) → c.isDigit = false := by
  intro c hc
  simp only [List.head?_cons, Option.some.injEq] at hc
  subst hc; decide

theorem parseSplitChars_canonical
    {d1 d2 d3 : List Char} {f : Char} {vrest : List Char}
    (h1n : d1 ≠ []) (h1d : ∀ c ∈ d1, c.isDigit = true)
    (h2n : d2 ≠ []) (h2d : ∀ c ∈ d2, c.isDigit = true)
    (h3n : d3 ≠ []) (h3d : ∀ c ∈ d3, c.isDigit = true)
    (hf : f.isAlpha = true)
    (hv : vrest = ['?'] ∨ (vrest ≠ [] ∧ ∀ c ∈ vrest, c.isDigit = true)) :
    parseSplitChars (d1 ++ '_' :: (d2 ++ '_' :: (d3 ++ '_' :: f :: '_' :: 'v' :: (vrest ++ splitNameTail))))
      = some ⟨⟨d1⟩, ⟨d2⟩, ⟨d3⟩, ⟨[f]⟩⟩ := by
  rw [parseSplitChars, spanDigits_append h1d (head_underscore_not_digit _)]
  simp only [if_neg h1n]
  rw [spanDigits_append h2d (head_underscore_not_digit _)]
  simp only [if_neg h2n]
  rw [spanDigits_append h3d (head_underscore_not_digit _)]
  simp only [if_neg h3n]
  simp only [hf, not_true_eq_false, if_neg, Bool.not_true]
  rcases hv with hv | ⟨hvn, hvd⟩
  · subst hv
    simp [tailMatches]
  · cases vrest with
    | nil => exact absurd rfl hvn
    | cons v0 vr =>
      have hv0 : v0.isDigit = true := hvd v0 (by simp)
      have hq : v0 ≠ '?' := by
        intro h; subst h; simp at hv0
      have : spanDigits ((v0 :: vr) ++ splitNameTail) = (v0 :: vr, splitNameTail) := by
        refine spanDigits_append hvd ?_
        intro c hc
        simp only [splitNameTail] at hc ⊢
        simp only [List.head?_cons, Option.some.injEq, show ("_hsc_realistic.fits".data) = '_' :: "hsc_realistic.fits".data from rfl] at hc
        subst hc; decide
      simp only [List.cons_append] at this ⊢
      -- the `?` branch does not fire since v0 is a digit
      rw [if_neg hq, this]
      simp only [if_neg hvn]
      simp [tailMatches]

end RoundTrip

theorem format_split_filename_data (sim snapshot subhalo : ℕ) (filt : Char) (version : String) :
    (format_split_filename sim snapshot subhalo filt version).data
      = natDecimal sim ++ '_' :: (natDecimal snapshot ++ '_' :: (natDecimal subhalo
          ++ '_' :: filt :: '_' :: (version.data ++ splitNameTail))) := by
  show natDecimal sim ++ "_".data ++ natDecimal snapshot ++ "_".data ++ natDecimal subhalo
      ++ "_".data ++ [filt] ++ "_".data ++ version.data ++ splitNameTail = _
  simp

/-- Claim C2: the filename codec round-trips.  For every numeric `sim`,
`snapshot` and `subhalo`, single-letter `filter` and version of the form
`v<digits>` or `v?`, parsing the formatted split filename recovers the
decimal strings of exactly `(sim, snapshot, subhalo, filter)` (the digit
groups evaluate back to the original numbers); a filename that does not
match the anchored pattern, such as `ignore_me.fits`, parses to `none`
(the parser is total, so no input raises). -/
theorem claim_C2_codec_roundtrip (sim snapshot subhalo : ℕ) (filt : Char) (version : String)
    (hf : filt.isAlpha = true) (hv : version_token_ok version = true) :
    parse_split_filename (format_split_filename sim snapshot subhalo filt version)
        = some ⟨⟨natDecimal sim⟩, ⟨natDecimal snapshot⟩, ⟨natDecimal subhalo⟩, ⟨[filt]⟩⟩
      ∧ decDigitsVal (natDecimal sim) = sim
      ∧ decDigitsVal (natDecimal snapshot) = snapshot
      ∧ decDigitsVal (natDecimal subhalo) = subhalo
      ∧ parse_split_filename "ignore_me.fits" = none := by
  refine ⟨?_, decDigitsVal_natDecimal _, decDigitsVal_natDecimal _, decDigitsVal_natDecimal _,
    by decide⟩
  unfold parse_split_filename
  rw [format_split_filename_data]
  unfold version_token_ok at hv
  rcases hd : version.data with _ | ⟨c, rest⟩ <;> rw [hd] at hv
  · simp at hv
  · simp only [decide_eq_true_eq] at hv
    obtain ⟨hc, hrest⟩ := hv
    subst hc
    refine parseSplitChars_canonical (natDecimal_ne_nil _) (natDecimal_all_digit _)
      (natDecimal_ne_nil _) (natDecimal_all_digit _)
      (natDecimal_ne_nil _) (natDecimal_all_digit _) hf ?_
    rcases hrest with h | ⟨hn, hall⟩
    · exact Or.inl h
    · exact Or.inr ⟨hn, fun ch hch => by
        have := List.all_eq_true.mp hall ch hch
        simpa using this⟩

/-- Witness for claim C2 at `sim=50, snapshot=72, subhalo=3, filter=G,
version=v2`, the example given in the pipeline's docstring. -/
theorem claim_C2_codec_roundtrip_witness :
    'G'.isAlpha = true ∧ version_token_ok "v2" = true ∧
      (parse_split_filename (format_split_filename 50 72 3 'G' "v2")
          = some ⟨⟨natDecimal 50⟩, ⟨natDecimal 72⟩, ⟨natDecimal 3⟩, ⟨['G']⟩⟩
        ∧ decDigitsVal (natDecimal 50) = 50
        ∧ decDigitsVal (natDecimal 72) = 72
        ∧ decDigitsVal (natDecimal 3) = 3
        ∧ parse_split_filename "ignore_me.fits" = none) :=
  ⟨by decide, by decide, claim_C2_codec_roundtrip 50 72 3 'G' "v2" (by decide) (by decide)⟩


/-! ## Catalog data model (split.py lines 13-178, 256-301) -/

/-- `CATALOG_COLUMN_ORDER` from split.py: the fixed 26-column schema. -/
def CATALOG_COLUMN_ORDER : List String := [
  "object_id", "filename", "filter", "sim", "snapshot", "subhalo", "dbid",
  "has_merger_row",
  "has_major_past_1gyr", "has_major_future_1gyr",
  "has_minor_past_1gyr", "has_minor_future_1gyr",
  "has_mini_past_1gyr", "has_mini_future_1gyr",
  "major_count_since_1gyr", "major_count_until_1gyr",
  "minor_count_since_1gyr", "minor_count_until_1gyr",
  "mini_count_since_1gyr", "mini_count_until_1gyr",
  "major_time_since_merger", "major_time_until_merger",
  "minor_time_since_merger", "minor_time_until_merger",
  "mini_time_since_merger", "mini_time_until_merger"]

/-- `MERGER_LABEL_COLUMNS` from split.py: the 18 merger-label columns. -/
def MERGER_LABEL_COLUMNS : List String := [
  "has_major_past_1gyr", "has_major_future_1gyr",
  "has_minor_past_1gyr", "has_minor_future_1gyr",
  "has_mini_past_1gyr", "has_mini_future_1gyr",
  "major_count_since_1gyr", "major_count_until_1gyr",
  "minor_count_since_1gyr", "minor_count_until_1gyr",
  "mini_count_since_1gyr", "mini_count_until_1gyr",
  "major_time_since_merger", "major_time_until_merger",
  "minor_time_since_merger", "minor_time_until_merger",
  "mini_time_since_merger", "mini_time_until_merger"]

/-- A catalog row, with one typed field per column of
`CATALOG_COLUMN_ORDER` (Python keeps these in a dict). -/
structure CatalogEntry where
  object_id : ℤ
  filename : String
  filter : String
  sim : ℤ
  snapshot : ℤ
  subhalo : ℤ
  dbid : String
  has_merger_row : Bool
  has_major_past_1gyr : Bool
  has_major_future_1gyr : Bool
  has_minor_past_1gyr : Bool
  has_minor_future_1gyr : Bool
  has_mini_past_1gyr : Bool
  has_mini_future_1gyr : Bool
  major_count_since_1gyr : ℤ
  major_count_until_1gyr : ℤ
  minor_count_since_1gyr : ℤ
  minor_count_until_1gyr : ℤ
  mini_count_since_1gyr : ℤ
  mini_count_until_1gyr : ℤ
  major_time_since_merger : ℚ
  major_time_until_merger : ℚ
  minor_time_since_merger : ℚ
  minor_time_until_merger : ℚ
  mini_time_since_merger : ℚ
  mini_time_until_merger : ℚ
deriving DecidableEq, Repr

/-- `DEFAULT_COLUMN_VALUES` / `_default_catalog_entry` from split.py:
fixed sentinel defaults, never nulls. -/
def default_catalog_entry : CatalogEntry where
  object_id := -1
  filename := ""
  filter := ""
  sim := -1
  snapshot := -1
  subhalo := -1
  dbid := ""
  has_merger_row := false
  has_major_past_1gyr := false
  has_major_future_1gyr := false
  has_minor_past_1gyr := false
  has_minor_future_1gyr := false
  has_mini_past_1gyr := false
  has_mini_future_1gyr := false
  major_count_since_1gyr := 0
  major_count_until_1gyr := 0
  minor_count_since_1gyr := 0
  minor_count_until_1gyr := 0
  mini_count_since_1gyr := 0
  mini_count_until_1gyr := 0
  major_time_since_merger := -1
  major_time_until_merger := -1
  minor_time_since_merger := -1
  minor_time_until_merger := -1
  mini_time_since_merger := -1
  mini_time_until_merger := -1

/-- `entry[col]` for a catalog entry, giving the table cell value for
each column of the fixed schema.  An unknown column name would be a
Python `KeyError`; the model returns an empty string there, and is only
applied to schema columns. -/
def entryGet (e : CatalogEntry) : String → Value
  | "object_id" => .int e.object_id
  | "filename" => .str e.filename
  | "filter" => .str e.filter
  | "sim" => .int e.sim
  | "snapshot" => .int e.snapshot
  | "subhalo" => .int e.subhalo
  | "dbid" => .str e.dbid
  | "has_merger_row" => .bool e.has_merger_row
  | "has_major_past_1gyr" => .bool e.has_major_past_1gyr
  | "has_major_future_1gyr" => .bool e.has_major_future_1gyr
  | "has_minor_past_1gyr" => .bool e.has_minor_past_1gyr
  | "has_minor_future_1gyr" => .bool e.has_minor_future_1gyr
  | "has_mini_past_1gyr" => .bool e.has_mini_past_1gyr
  | "has_mini_future_1gyr" => .bool e.has_mini_future_1gyr
  | "major_count_since_1gyr" => .int e.major_count_since_1gyr
  | "major_count_until_1gyr" => .int e.major_count_until_1gyr
  | "minor_count_since_1gyr" => .int e.minor_count_since_1gyr
  | "minor_count_until_1gyr" => .int e.minor_count_until_1gyr
  | "mini_count_since_1gyr" => .int e.mini_count_since_1gyr
  | "mini_count_until_1gyr" => .int e.mini_count_until_1gyr
  | "major_time_since_merger" => .float e.major_time_since_merger
  | "major_time_until_merger" => .float e.major_time_until_merger
  | "minor_time_since_merger" => .float e.minor_time_since_merger
  | "minor_time_until_merger" => .float e.minor_time_until_merger
  | "mini_time_since_merger" => .float e.mini_time_since_merger
  | "mini_time_until_merger" => .float e.mini_time_until_merger
  | _ => .str ""

/-- `DEFAULT_COLUMN_VALUES.get(column_name, '')`
(`_default_value_for_column` in split.py). -/
def default_value_for_column (c : String) : Value :=
  if c ∈ CATALOG_COLUMN_ORDER then entryGet default_catalog_entry c else .str ""

/-- The 18 merger-label values derived from one merger-CSV row
(`_merger_labels_from_row`). -/
structure MergerLabels where
  has_major_past_1gyr : Bool
  has_major_future_1gyr : Bool
  has_minor_past_1gyr : Bool
  has_minor_future_1gyr : Bool
  has_mini_past_1gyr : Bool
  has_mini_future_1gyr : Bool
  major_count_since_1gyr : ℤ
  major_count_until_1gyr : ℤ
  minor_count_since_1gyr : ℤ
  minor_count_until_1gyr : ℤ
  mini_count_since_1gyr : ℤ
  mini_count_until_1gyr : ℤ
  major_time_since_merger : ℚ
  major_time_until_merger : ℚ
  minor_time_since_merger : ℚ
  minor_time_until_merger : ℚ
  mini_time_since_merger : ℚ
  mini_time_until_merger : ℚ
deriving DecidableEq, Repr

/-- `_merger_labels_from_row` from split.py: a raw CSV row is a partial
map from header name to cell string (`row.get` returns `None` for a
missing column); the six counts go through `_safe_int` (default 0), the
six times through `_safe_float` (default -1.0), and each `has_*` flag is
`count > 0`.  The dict starts from the defaults and every one of the 18
keys is then updated, so the update covers all fields. -/
def merger_labels_from_row (row : String → Option String) : MergerLabels :=
  let major_count_since := safe_int (row "Major_CountSince1Gyr") 0
  let major_count_until := safe_int (row "Major_CountUntil1Gyr") 0
  let minor_count_since := safe_int (row "Minor_CountSince1Gyr") 0
  let minor_count_until := safe_int (row "Minor_CountUntil1Gyr") 0
  let mini_count_since := safe_int (row "Mini_CountSince1Gyr") 0
  let mini_count_until := safe_int (row "Mini_CountUntil1Gyr") 0
  { has_major_past_1gyr := major_count_since > 0
    has_major_future_1gyr := major_count_until > 0
    has_minor_past_1gyr := minor_count_since > 0
    has_minor_future_1gyr := minor_count_until > 0
    has_mini_past_1gyr := mini_count_since > 0
    has_mini_future_1gyr := mini_count_until > 0
    major_count_since_1gyr := major_count_since
    major_count_until_1gyr := major_count_until
    minor_count_since_1gyr := minor_count_since
    minor_count_until_1gyr := minor_count_until
    mini_count_since_1gyr := mini_count_since
    mini_count_until_1gyr := mini_count_until
    major_time_since_merger := safe_float (row "Major_TimeSinceMerger") (-1)
    major_time_until_merger := safe_float (row "Major_TimeUntilMerger") (-1)
    minor_time_since_merger := safe_float (row "Minor_TimeSinceMerger") (-1)
    minor_time_until_merger := safe_float (row "Minor_TimeUntilMerger") (-1)
    mini_time_since_merger := safe_float (row "Mini_TimeSinceMerger") (-1)
    mini_time_until_merger := safe_float (row "Mini_TimeUntilMerger") (-1) }

/-- The label-merge loop of `_build_catalog_entry` (lines 297-300):
`has_merger_row` is set and every key of the label dict — exactly the 18
`MERGER_LABEL_COLUMNS` — overwrites the entry's field. -/
def apply_merger_labels (e : CatalogEntry) (m : MergerLabels) : CatalogEntry :=
  { e with
    has_merger_row := true
    has_major_past_1gyr := m.has_major_past_1gyr
    has_major_future_1gyr := m.has_major_future_1gyr
    has_minor_past_1gyr := m.has_minor_past_1gyr
    has_minor_future_1gyr := m.has_minor_future_1gyr
    has_mini_past_1gyr := m.has_mini_past_1gyr
    has_mini_future_1gyr := m.has_mini_future_1gyr
    major_count_since_1gyr := m.major_count_since_1gyr
    major_count_until_1gyr := m.major_count_until_1gyr
    minor_count_since_1gyr := m.minor_count_since_1gyr
    minor_count_until_1gyr := m.minor_count_until_1gyr
    mini_count_since_1gyr := m.mini_count_since_1gyr
    mini_count_until_1gyr := m.mini_count_until_1gyr
    major_time_since_merger := m.major_time_since_merger
    major_time_until_merger := m.major_time_until_merger
    minor_time_since_merger := m.minor_time_since_merger
    minor_time_until_merger := m.minor_time_until_merger
    mini_time_since_merger := m.mini_time_since_merger
    mini_time_until_merger := m.mini_time_until_merger }

/-- The dbid computation of `_build_catalog_entry` (lines 269-271):
`'{snapshot_int}_{subhalo_int}'` when both coerced to non-negative,
else the empty string. -/
def entry_dbid (snapshot_int subhalo_int : ℤ) : String :=
  if 0 ≤ snapshot_int ∧ 0 ≤ subhalo_int then
    toString snapshot_int ++ "_" ++ toString subhalo_int
  else ""

/-- `_build_catalog_entry` from split.py.  The merger cache is the
already-loaded per-simulation mapping `sim-key → dbid → labels`
(`_load_merger_rows` does the file probing and CSV reading that fills
it; a simulation with no CSV maps every dbid to `none`).  A present
labels dict is always non-empty (it has all 18 keys), so Python's
`if merger_labels:` truthiness test is the `some` case here. -/
def build_catalog_entry (sim snapshot subhalo : String) (filt : String) (filename : String)
    (merger_cache : String → String → Option MergerLabels) : CatalogEntry :=
  let sim_int := safe_int (some sim) (-1)
  let snapshot_int := safe_int (some snapshot) (-1)
  let subhalo_int := safe_int (some subhalo) (-1)
  let dbid := entry_dbid snapshot_int subhalo_int
  let entry : CatalogEntry :=
    { default_catalog_entry with
      object_id := if 0 ≤ snapshot_int ∧ 0 ≤ subhalo_int
        then snapshot_int * 1000000 + subhalo_int else -1
      filename := filename
      filter := filt
      sim := sim_int
      snapshot := snapshot_int
      subhalo := subhalo_int
      dbid := dbid }
  if sim_int < 0 ∨ dbid = "" then entry
  else
    match merger_cache (toString sim_int) dbid with
    | some merger_labels => apply_merger_labels entry merger_labels
    | none => entry

/-! ## Claims C3 and C4: coercions and entry invariants -/

theorem apply_merger_labels_object_id (e : CatalogEntry) (m : MergerLabels) :
    (apply_merger_labels e m).object_id = e.object_id := rfl

theorem apply_merger_labels_dbid (e : CatalogEntry) (m : MergerLabels) :
    (apply_merger_labels e m).dbid = e.dbid := rfl

theorem apply_merger_labels_filename (e : CatalogEntry) (m : MergerLabels) :
    (apply_merger_labels e m).filename = e.filename := rfl

/-- Claim C3 counterexample: `_safe_int` is `int(float(value))`, and
Python's `int()` truncates a float toward zero rather than flooring it:
on the raw value `-2.5` (which parses to the float -5/2) the code
returns -2, while the floor of the parse is -3.  So "returns the floor
of the float parse" fails at this input. -/
theorem claim_C3_floor_counterexample :
    pyFloat "-2.5" = some (-(5 / 2) : ℚ)
      ∧ safe_int (some "-2.5") 0 = -2
      ∧ ⌊(-(5 / 2) : ℚ)⌋ = -3
      ∧ safe_int (some "-2.5") 0 ≠ ⌊(-(5 / 2) : ℚ)⌋ := by
  have h1 : pyFloat "-2.5"
      = some (-((decDigitsVal ['2'] : ℚ) + (decDigitsVal ['5'] : ℚ) / 10 ^ (1 : ℕ))) := rfl
  have h2 : decDigitsVal ['2'] = 2 := rfl
  have h3 : decDigitsVal ['5'] = 5 := rfl
  rw [h2, h3] at h1
  have h4 : (-(((2 : ℕ) : ℚ) + ((5 : ℕ) : ℚ) / 10 ^ (1 : ℕ))) = -(5 / 2 : ℚ) := by
    push_cast; norm_num
  rw [h4] at h1
  have hfloor : ⌊(-(5 / 2) : ℚ)⌋ = -3 := by
    rw [Int.floor_eq_iff]
    norm_num
  have hceil : ⌈(-(5 / 2) : ℚ)⌉ = -2 := by
    rw [Int.ceil_eq_iff]
    norm_num
  have hsi : safe_int (some "-2.5") 0 = -2 := by
    simp only [safe_int, h1, pyTrunc]
    rw [if_neg (by norm_num)]
    exact hceil
  exact ⟨h1, hsi, hfloor, by rw [hsi, hfloor]; decide⟩

/-- Claim C3 (amended): the safe-int coercion used for all six count
fields returns the float parse of the value truncated toward zero
(which is the floor exactly when the value is non-negative) and 0 when
the value does not parse as a float (or is missing); the safe-float
coercion used for all six time fields returns the parsed float and -1.0
on parse failure (or a missing value); the six count fields and six
time fields of a merger-label row go through exactly these coercions;
and when the cached mapping has no row for the entry's dbid, the built
entry has `has_merger_row = false` and every merger-label field at its
default. -/
theorem claim_C3_safe_coercions :
    (∀ s q, pyFloat s = some q → safe_int (some s) 0 = pyTrunc q)
  ∧ (∀ s, pyFloat s = none → safe_int (some s) 0 = 0)
  ∧ safe_int none 0 = 0
  ∧ (∀ s q, pyFloat s = some q → safe_float (some s) (-1) = q)
  ∧ (∀ s, pyFloat s = none → safe_float (some s) (-1) = -1)
  ∧ safe_float none (-1) = -1
  ∧ (∀ row : String → Option String,
        (merger_labels_from_row row).major_count_since_1gyr = safe_int (row "Major_CountSince1Gyr") 0
      ∧ (merger_labels_from_row row).major_count_until_1gyr = safe_int (row "Major_CountUntil1Gyr") 0
      ∧ (merger_labels_from_row row).minor_count_since_1gyr = safe_int (row "Minor_CountSince1Gyr") 0
      ∧ (merger_labels_from_row row).minor_count_until_1gyr = safe_int (row "Minor_CountUntil1Gyr") 0
      ∧ (merger_labels_from_row row).mini_count_since_1gyr = safe_int (row "Mini_CountSince1Gyr") 0
      ∧ (merger_labels_from_row row).mini_count_until_1gyr = safe_int (row "Mini_CountUntil1Gyr") 0
      ∧ (merger_labels_from_row row).major_time_since_merger = safe_float (row "Major_TimeSinceMerger") (-1)
      ∧ (merger_labels_from_row row).major_time_until_merger = safe_float (row "Major_TimeUntilMerger") (-1)
      ∧ (merger_labels_from_row row).minor_time_since_merger = safe_float (row "Minor_TimeSinceMerger") (-1)
      ∧ (merger_labels_from_row row).minor_time_until_merger = safe_float (row "Minor_TimeUntilMerger") (-1)
      ∧ (merger_labels_from_row row).mini_time_since_merger = safe_float (row "Mini_TimeSinceMerger") (-1)
      ∧ (merger_labels_from_row row).mini_time_until_merger = safe_float (row "Mini_TimeUntilMerger") (-1))
  ∧ (∀ sim snapshot subhalo filt filename cache,
      cache (toString (safe_int (some sim) (-1)))
          (entry_dbid (safe_int (some snapshot) (-1)) (safe_int (some subhalo) (-1))) = none →
        (build_catalog_entry sim snapshot subhalo filt filename cache).has_merger_row = false
      ∧ ∀ c ∈ MERGER_LABEL_COLUMNS,
          entryGet (build_catalog_entry sim snapshot subhalo filt filename cache) c
            = entryGet default_catalog_entry c) := by
  refine ⟨?_, ?_, rfl, ?_, ?_, rfl, ?_, ?_⟩
  · intro s q h; simp [safe_int, h]
  · intro s h; simp [safe_int, h]
  · intro s q h; simp [safe_float, h]
  · intro s h; simp [safe_float, h]
  · intro row
    refine ⟨rfl, rfl, rfl, rfl, rfl, rfl, rfl, rfl, rfl, rfl, rfl, rfl⟩
  · intro sim snapshot subhalo filt filename cache hnone
    simp only [build_catalog_entry]
    split
    · exact ⟨rfl, by intro c hc; fin_cases hc <;> rfl⟩
    · rw [hnone]
      exact ⟨rfl, by intro c hc; fin_cases hc <;> rfl⟩

/-- Witness for claim C3 (amended) at concrete inputs: `"2.9"` parses
and truncates to 2, `"abc"` fails and defaults to 0 / -1.0, and a cache
with no rows leaves the entry's labels at their defaults. -/
theorem claim_C3_safe_coercions_witness :
    pyFloat "2.9" = some (29 / 10 : ℚ)
  ∧ safe_int (some "2.9") 0 = pyTrunc (29 / 10 : ℚ)
  ∧ pyFloat "abc" = none
  ∧ safe_int (some "abc") 0 = 0
  ∧ safe_float (some "abc") (-1) = -1
  ∧ ((fun _ _ => none : String → String → Option MergerLabels)
        (toString (safe_int (some "50") (-1)))
        (entry_dbid (safe_int (some "72") (-1)) (safe_int (some "3") (-1))) = none)
  ∧ (build_catalog_entry "50" "72" "3" "G" "x.fits" (fun _ _ => none)).has_merger_row = false := by
  have h29a : pyFloat "2.9"
      = some ((decDigitsVal ['2'] : ℚ) + (decDigitsVal ['9'] : ℚ) / 10 ^ (1 : ℕ)) := rfl
  have h29b : decDigitsVal ['2'] = 2 := rfl
  have h29c : decDigitsVal ['9'] = 9 := rfl
  have h29 : pyFloat "2.9" = some (29 / 10 : ℚ) := by
    rw [h29a, h29b, h29c]
    congr 1
    push_cast
    norm_num
  have habc : pyFloat "abc" = none := by decide
  refine ⟨h29, claim_C3_safe_coercions.1 "2.9" _ h29, habc,
    claim_C3_safe_coercions.2.1 "abc" habc,
    claim_C3_safe_coercions.2.2.2.2.1 "abc" habc, rfl,
    (claim_C3_safe_coercions.2.2.2.2.2.2.2 "50" "72" "3" "G" "x.fits" (fun _ _ => none) rfl).1⟩

/-- Claim C4: for every entry produced by `_build_catalog_entry`,
`object_id = snapshot*1_000_000 + subhalo` when both the coerced
snapshot and subhalo are non-negative and -1 otherwise, and
`dbid = "{snapshot}_{subhalo}"` when both are non-negative and the
empty string otherwise. -/
theorem claim_C4_object_id_dbid (sim snapshot subhalo filt filename : String)
    (cache : String → String → Option MergerLabels) :
    (0 ≤ safe_int (some snapshot) (-1) ∧ 0 ≤ safe_int (some subhalo) (-1) →
        (build_catalog_entry sim snapshot subhalo filt filename cache).object_id
          = safe_int (some snapshot) (-1) * 1000000 + safe_int (some subhalo) (-1)
      ∧ (build_catalog_entry sim snapshot subhalo filt filename cache).dbid
          = toString (safe_int (some snapshot) (-1)) ++ "_" ++ toString (safe_int (some subhalo) (-1)))
  ∧ (¬ (0 ≤ safe_int (some snapshot) (-1) ∧ 0 ≤ safe_int (some subhalo) (-1)) →
        (build_catalog_entry sim snapshot subhalo filt filename cache).object_id = -1
      ∧ (build_catalog_entry sim snapshot subhalo filt filename cache).dbid = "") := by
  have hbase : ∀ (h : Prop) [Decidable h], True := fun _ _ => trivial
  constructor
  · intro hpos
    simp only [build_catalog_entry]
    split
    · simp only [if_pos hpos, entry_dbid, if_pos hpos]
      exact ⟨by trivial, by trivial⟩
    · split
      · rw [apply_merger_labels_object_id, apply_merger_labels_dbid]
        simp only [if_pos hpos, entry_dbid]
        exact ⟨by trivial, by trivial⟩
      · simp only [if_pos hpos, entry_dbid, if_pos hpos]
        exact ⟨by trivial, by trivial⟩
  · intro hneg
    simp only [build_catalog_entry]
    split
    · simp only [if_neg hneg, entry_dbid, if_neg hneg]
      exact ⟨by trivial, by trivial⟩
    · split
      · rw [apply_merger_labels_object_id, apply_merger_labels_dbid]
        simp only [if_neg hneg, entry_dbid, if_neg hneg]
        exact ⟨by trivial, by trivial⟩
      · simp only [if_neg hneg, entry_dbid, if_neg hneg]
        exact ⟨by trivial, by trivial⟩

/-- Witness for claim C4 at `snapshot="72", subhalo="3"` (both branches
of the coercion non-negative) giving `object_id = 72000003` and
`dbid = "72_3"`. -/
theorem claim_C4_object_id_dbid_witness :
    (0 ≤ safe_int (some "72") (-1) ∧ 0 ≤ safe_int (some "3") (-1))
  ∧ (build_catalog_entry "50" "72" "3" "G" "x.fits" (fun _ _ => none)).object_id
      = safe_int (some "72") (-1) * 1000000 + safe_int (some "3") (-1)
  ∧ (build_catalog_entry "50" "72" "3" "G" "x.fits" (fun _ _ => none)).dbid
      = toString (safe_int (some "72") (-1)) ++ "_" ++ toString (safe_int (some "3") (-1)) := by
  have h : 0 ≤ safe_int (some "72") (-1) ∧ 0 ≤ safe_int (some "3") (-1) := by decide
  obtain ⟨h1, h2⟩ :=
    (claim_C4_object_id_dbid "50" "72" "3" "G" "x.fits" (fun _ _ => none)).1 h
  exact ⟨h, h1, h2⟩

/-! ## Table model (astropy `Table` as used by split.py lines 316-398) -/

/-- An astropy table as the catalog code uses it: named columns and a
list of rows, each row holding one cell per column, positionally. -/
structure PTable where
  colnames : List String
  rows : List (List Value)
deriving DecidableEq, Repr

/-- Well-formedness invariant astropy maintains: every row has exactly
one cell per column. -/
def PTable.wf (t : PTable) : Prop :=
  ∀ r ∈ t.rows, r.length = t.colnames.length

/-- Key lookup in an association list (first match wins, as for column
names, which astropy keeps unique anyway). -/
def assocLookup : List (String × Value) → String → Option Value
  | [], _ => none
  | (k, v) :: rest, c => if k = c then some v else assocLookup rest c

/-- The cell of a row under a given column name (`row[col]`).  A column
absent from the table would be a Python `KeyError`; the model returns an
empty string there and the theorems assume the column is present. -/
def rowGet (colnames : List String) (row : List Value) (c : String) : Value :=
  (assocLookup (colnames.zip row) c).getD (.str "")

/-- `table[col]` as a list of cells. -/
def getColumn (t : PTable) (c : String) : List Value :=
  t.rows.map (fun r => rowGet t.colnames r c)

/-- `table[col] = [v] * len(table)`: append a constant new column. -/
def addColumnConst (t : PTable) (c : String) (v : Value) : PTable :=
  ⟨t.colnames ++ [c], t.rows.map (fun r => r ++ [v])⟩

/-- `table[col] = vals`: append a new column with per-row values. -/
def addColumnVals (t : PTable) (c : String) (vals : List Value) : PTable :=
  ⟨t.colnames ++ [c], List.zipWith (fun r v => r ++ [v]) t.rows vals⟩

/-- `_fill_missing_columns` from split.py: for each requested column not
already present, append it filled with the column's default value. -/
def fill_missing_columns (t : PTable) (all_columns : List String) : PTable :=
  all_columns.foldl (fun acc col =>
    if col ∈ acc.colnames then acc
    else addColumnConst acc col (default_value_for_column col)) t

/-- `table[all_columns]`: project/reorder a table to a column list. -/
def projectTable (t : PTable) (cols : List String) : PTable :=
  ⟨cols, t.rows.map (fun r => cols.map (fun c => rowGet t.colnames r c))⟩

/-- `list(dict.fromkeys(...))`: deduplicate preserving first-occurrence
order. -/
def dedupPreserve (l : List String) : List String :=
  l.foldl (fun acc c => if c ∈ acc then acc else acc ++ [c]) []

/-- `_build_catalog_table` from split.py: one row per entry, cells in
fixed column order (the zero-entry case produces the same empty table
with the full schema). -/
def build_catalog_table (entries : List CatalogEntry) : PTable :=
  ⟨CATALOG_COLUMN_ORDER, entries.map (fun e => CATALOG_COLUMN_ORDER.map (entryGet e))⟩

/-- The `parsed_entries` list of `_upgrade_existing_catalog`: one entry
re-derived per row from its filename cell (and filter cell), computed
before any column is added. -/
def upgrade_parsed_entries (t : PTable)
    (cache : String → String → Option MergerLabels) : List CatalogEntry :=
  let filenames := getColumn t "filename"
  let filters := if "filter" ∈ t.colnames then getColumn t "filter"
    else List.replicate t.rows.length (Value.str "")
  (filenames.zip filters).map (fun p =>
    match parse_split_filename (pyStr p.1) with
    | none =>
      { default_catalog_entry with filename := pyStr p.1, filter := pyStr p.2 }
    | some parsed =>
      -- `filt=filt or parsed['filter']`: the row's filter cell when
      -- non-empty, else the filter group parsed from the filename
      build_catalog_entry parsed.sim parsed.snapshot parsed.subhalo
        (if pyStr p.2 ≠ "" then pyStr p.2 else parsed.filter) (pyStr p.1) cache)

/-- `_upgrade_existing_catalog` from split.py: append each schema
column still missing, with per-row values taken from the re-derived
entries.  A table without a `filename` column is returned unchanged. -/
def upgrade_existing_catalog (t : PTable)
    (cache : String → String → Option MergerLabels) : PTable :=
  if "filename" ∉ t.colnames then t
  else
    CATALOG_COLUMN_ORDER.foldl (fun acc col =>
      if col ∈ acc.colnames then acc
      else addColumnVals acc col
        ((upgrade_parsed_entries t cache).map (fun e => entryGet e col))) t

/-- The append-merge block of `_write_catalog_table` (lines 381-395):
drop incoming rows whose filename already exists in the loaded catalog,
take the first-occurrence union of the column lists, backfill missing
columns with defaults on both sides, project both to the union list and
stack existing-then-new (only the existing table when nothing new is
left). -/
def merge_with_existing (existing table : PTable) : PTable :=
  let existing_filenames := (getColumn existing "filename").map pyStr
  let table1 := if 0 < table.rows.length then
      ⟨table.colnames, table.rows.filter (fun r =>
        decide (pyStr (rowGet table.colnames r "filename") ∉ existing_filenames))⟩
    else table
  let all_columns := dedupPreserve (existing.colnames ++ table1.colnames)
  let existing2 := fill_missing_columns existing all_columns
  let table2 := fill_missing_columns table1 all_columns
  let existing3 := projectTable existing2 all_columns
  let table3 := projectTable table2 all_columns
  if 0 < table3.rows.length then ⟨all_columns, existing3.rows ++ table3.rows⟩
  else existing3

/-- `_write_catalog_table` from split.py, as the table finally written:
with `catalog_append` set and an existing catalog on disk, upgrade the
existing one and merge; otherwise the incoming table is written as-is. -/
def write_catalog_table (table : PTable) (existing : Option PTable)
    (catalog_append : Bool) (cache : String → String → Option MergerLabels) : PTable :=
  match catalog_append, existing with
  | true, some ex => merge_with_existing (upgrade_existing_catalog ex cache) table
  | _, _ => table

/-! ## Lemmas about the table model -/

section TableLemmas

theorem assocLookup_append (l1 l2 : List (String × Value)) (c : String) :
    assocLookup (l1 ++ l2) c
      = match assocLookup l1 c with
        | some v => some v
        | none => assocLookup l2 c := by
  induction l1 with
  | nil => simp [assocLookup]
  | cons p rest ih =>
    obtain ⟨k, v⟩ := p
    by_cases h : k = c
    · simp [assocLookup, h]
    · simp [assocLookup, h, ih]

theorem assocLookup_zip_not_mem (ns : List String) (r : List Value) {c : String}
    (h : c ∉ ns) : assocLookup (ns.zip r) c = none := by
  induction ns generalizing r with
  | nil => simp [assocLookup]
  | cons n ns ih =>
    cases r with
    | nil => simp [assocLookup]
    | cons v vs =>
      have hn : n ≠ c := fun he => h (by simp [he])
      simp only [List.zip_cons_cons, assocLookup, if_neg hn]
      exact ih vs (fun hc => h (by simp [hc]))

theorem rowGet_append_left {ns : List String} {r : List Value} (ms : List String)
    (vs : List Value) {c : String} (hlen : ns.length = r.length) (hc : c ∈ ns) :
    rowGet (ns ++ ms) (r ++ vs) c = rowGet ns r c := by
  induction ns generalizing r with
  | nil => simp at hc
  | cons n ns ih =>
    cases r with
    | nil => simp at hlen
    | cons v rvs =>
      by_cases h : n = c
      · simp [rowGet, assocLookup, h]
      · have hc' : c ∈ ns := by
          rcases List.mem_cons.mp hc with h' | h'
          · exact absurd h'.symm h
          · exact h'
        simp only [rowGet, List.cons_append, List.zip_cons_cons, assocLookup, if_neg h]
        exact ih (by simpa using hlen) hc'

theorem rowGet_append_right {ns : List String} {r : List Value} (ms : List String)
    (vs : List Value) {c : String} (hlen : ns.length = r.length) (hc : c ∉ ns) :
    rowGet (ns ++ ms) (r ++ vs) c = rowGet ms vs c := by
  induction ns generalizing r with
  | nil =>
    cases r with
    | nil => simp
    | cons v rvs => simp at hlen
  | cons n ns ih =>
    cases r with
    | nil => simp at hlen
    | cons v rvs =>
      have hn : n ≠ c := fun he => hc (by simp [he])
      simp only [rowGet, List.cons_append, List.zip_cons_cons, assocLookup, if_neg hn]
      exact ih (by simpa using hlen) (fun h => hc (by simp [h]))

theorem rowGet_map (cols : List String) (f : String → Value) {c : String} (hc : c ∈ cols) :
    rowGet cols (cols.map f) c = f c := by
  induction cols with
  | nil => simp at hc
  | cons n ns ih =>
    by_cases h : n = c
    · subst h
      simp [rowGet, assocLookup]
    · have hc' : c ∈ ns := by
        rcases List.mem_cons.mp hc with h' | h'
        · exact absurd h'.symm h
        · exact h'
      simp only [List.map_cons, rowGet, List.zip_cons_cons, assocLookup, if_neg h]
      exact ih hc'

/-- The columns `_fill_missing_columns` appends, in order. -/
def missingCols (have_cols requested : List String) : List String :=
  requested.filter (fun c => decide (c ∉ have_cols))

theorem fill_missing_columns_eq (t : PTable) (cols : List String) (hnd : cols.Nodup) :
    fill_missing_columns t cols
      = ⟨t.colnames ++ missingCols t.colnames cols,
         t.rows.map (fun r =>
           r ++ (missingCols t.colnames cols).map default_value_for_column)⟩ := by
  induction cols generalizing t with
  | nil =>
    obtain ⟨ns, rs⟩ := t
    simp [fill_missing_columns, missingCols]
  | cons c cs ih =>
    have hcs : cs.Nodup := hnd.of_cons
    have hcnot : c ∉ cs := by
      intro h
      exact (List.nodup_cons.mp hnd).1 h
    by_cases h : c ∈ t.colnames
    · have : fill_missing_columns t (c :: cs) = fill_missing_columns t cs := by
        simp [fill_missing_columns, h]
      rw [this, ih t hcs]
      have hm : missingCols t.colnames (c :: cs) = missingCols t.colnames cs := by
        simp [missingCols, h]
      rw [hm]
    · have hstep : fill_missing_columns t (c :: cs)
          = fill_missing_columns (addColumnConst t c (default_value_for_column c)) cs := by
        simp [fill_missing_columns, h]
      rw [hstep, ih _ hcs]
      have hcols : (addColumnConst t c (default_value_for_column c)).colnames
          = t.colnames ++ [c] := rfl
      have hmiss : missingCols (t.colnames ++ [c]) cs = missingCols t.colnames cs := by
        unfold missingCols
        apply List.filter_congr
        intro x hx
        have hxc : x ≠ c := fun he => hcnot (he ▸ hx)
        simp [hxc]
      have hm2 : missingCols t.colnames (c :: cs) = c :: missingCols t.colnames cs := by
        simp [missingCols, h]
      rw [hm2]
      simp only [addColumnConst, hmiss]
      congr 1
      · simp
      · simp only [List.map_map]
        apply List.map_congr_left
        intro r _
        simp

theorem fill_missing_columns_noop (t : PTable) (cols : List String)
    (h : ∀ c ∈ cols, c ∈ t.colnames) : fill_missing_columns t cols = t := by
  induction cols generalizing t with
  | nil => rfl
  | cons c cs ih =>
    have hc : c ∈ t.colnames := h c (by simp)
    have : fill_missing_columns t (c :: cs) = fill_missing_columns t cs := by
      simp [fill_missing_columns, hc]
    rw [this]
    exact ih t (fun x hx => h x (by simp [hx]))

theorem dedupPreserve_aux_mem (l acc : List String) (x : String) :
    x ∈ l.foldl (fun acc c => if c ∈ acc then acc else acc ++ [c]) acc
      ↔ x ∈ acc ∨ x ∈ l := by
  induction l generalizing acc with
  | nil => simp
  | cons c cs ih =>
    by_cases h : c ∈ acc
    · simp only [List.foldl_cons, if_pos h, ih]
      constructor
      · rintro (hx | hx)
        · exact Or.inl hx
        · exact Or.inr (by simp [hx])
      · rintro (hx | hx)
        · exact Or.inl hx
        · rcases List.mem_cons.mp hx with hx | hx
          · exact Or.inl (hx ▸ h)
          · exact Or.inr hx
    · simp only [List.foldl_cons, if_neg h, ih]
      constructor
      · rintro (hx | hx)
        · rcases List.mem_append.mp hx with hx | hx
          · exact Or.inl hx
          · simp only [List.mem_singleton] at hx
            exact Or.inr (by simp [hx])
        · exact Or.inr (by simp [hx])
      · rintro (hx | hx)
        · exact Or.inl (by simp [hx])
        · rcases List.mem_cons.mp hx with hx | hx
          · exact Or.inl (by simp [hx])
          · exact Or.inr hx

theorem dedupPreserve_mem (l : List String) (x : String) :
    x ∈ dedupPreserve l ↔ x ∈ l := by
  unfold dedupPreserve
  rw [dedupPreserve_aux_mem]
  simp

theorem dedupPreserve_aux_nodup (l acc : List String) (h : acc.Nodup) :
    (l.foldl (fun acc c => if c ∈ acc then acc else acc ++ [c]) acc).Nodup := by
  induction l generalizing acc with
  | nil => simpa
  | cons c cs ih =>
    by_cases hc : c ∈ acc
    · simp only [List.foldl_cons, if_pos hc]
      exact ih acc h
    · simp only [List.foldl_cons, if_neg hc]
      refine ih _ ?_
      simp [List.nodup_append, h, hc]

theorem dedupPreserve_nodup (l : List String) : (dedupPreserve l).Nodup :=
  dedupPreserve_aux_nodup l [] List.nodup_nil

theorem dedupPreserve_aux_skip (l acc : List String) (h : ∀ c ∈ l, c ∈ acc) :
    l.foldl (fun acc c => if c ∈ acc then acc else acc ++ [c]) acc = acc := by
  induction l with
  | nil => rfl
  | cons c cs ih =>
    have hc : c ∈ acc := h c (by simp)
    simp only [List.foldl_cons, if_pos hc]
    exact ih (fun x hx => h x (by simp [hx]))

theorem dedupPreserve_aux_nodup_eq (l acc : List String) (hnd : l.Nodup)
    (hdisj : ∀ x ∈ l, x ∉ acc) :
    l.foldl (fun acc c => if c ∈ acc then acc else acc ++ [c]) acc = acc ++ l := by
  induction l generalizing acc with
  | nil => simp
  | cons c cs ih =>
    have hc : c ∉ acc := hdisj c (by simp)
    simp only [List.foldl_cons, if_neg hc]
    rw [ih _ hnd.of_cons]
    · simp
    · intro x hx
      rw [List.mem_append, List.mem_singleton]
      rintro (h | h)
      · exact hdisj x (by simp [hx]) h
      · exact (List.nodup_cons.mp hnd).1 (h ▸ hx)

theorem dedupPreserve_of_nodup (l : List String) (h : l.Nodup) : dedupPreserve l = l := by
  unfold dedupPreserve
  simpa using dedupPreserve_aux_nodup_eq l [] h (by simp)

theorem dedupPreserve_append_self (l : List String) :
    dedupPreserve (l ++ l) = dedupPreserve l := by
  unfold dedupPreserve
  rw [List.foldl_append]
  exact dedupPreserve_aux_skip l _ (fun c hc => (dedupPreserve_aux_mem l [] c).mpr (Or.inr hc))

end TableLemmas

/-! ## Claim C5: schema union / backfill / projection / stacking -/

/-- Modelled from the spec's words for the append-merge ("compute the
union of columns from both tables, ... column order is fixed"): the
first-occurrence union of the two column lists. -/
def spec_union_columns (a b : List String) : List String := dedupPreserve (a ++ b)

/-- Modelled from the spec's words: a row of one side aligned to the
result column list — the original cell for a column the side has, the
type-appropriate default for a column it lacks. -/
def spec_align_row (src_cols all_cols : List String) (r : List Value) : List Value :=
  all_cols.map (fun c =>
    if c ∈ src_cols then rowGet src_cols r c else default_value_for_column c)

/-- Modelled from the spec's words: the non-duplicate incoming rows —
those whose filename is not among the existing catalog's filenames. -/
def spec_kept_rows (existing table : PTable) : List (List Value) :=
  table.rows.filter (fun r =>
    decide (pyStr (rowGet table.colnames r "filename")
      ∉ (getColumn existing "filename").map pyStr))

/-- Modelled from the spec's words: the merge result has the union
column list, and its rows are the existing catalog's rows followed by
the non-duplicate incoming rows, each side aligned to the union with
defaults backfilled. -/
def spec_merge (existing table : PTable) : PTable :=
  ⟨spec_union_columns existing.colnames table.colnames,
    existing.rows.map (spec_align_row existing.colnames
        (spec_union_columns existing.colnames table.colnames))
      ++ (spec_kept_rows existing table).map (spec_align_row table.colnames
        (spec_union_columns existing.colnames table.colnames))⟩

theorem mem_missingCols {ns cols : List String} {c : String} :
    c ∈ missingCols ns cols ↔ c ∈ cols ∧ c ∉ ns := by
  unfold missingCols
  rw [List.mem_filter]
  simp

theorem projectTable_fill_eq (t : PTable) (cols : List String) (hnd : cols.Nodup)
    (hwf : t.wf) :
    projectTable (fill_missing_columns t cols) cols
      = ⟨cols, t.rows.map (spec_align_row t.colnames cols)⟩ := by
  rw [fill_missing_columns_eq t cols hnd]
  unfold projectTable
  simp only [List.map_map]
  congr 1
  apply List.map_congr_left
  intro r hr
  unfold spec_align_row
  apply List.map_congr_left
  intro c hc
  by_cases h : c ∈ t.colnames
  · simp only []
    rw [rowGet_append_left _ _ (hwf r hr).symm h, if_pos h]
  · simp only []
    rw [rowGet_append_right _ _ (hwf r hr).symm h, if_neg h,
      rowGet_map _ _ (mem_missingCols.mpr ⟨hc, h⟩)]

/-- The append-merge block refines the spec-level description; shared
by the claims about `_write_catalog_table`. -/
theorem merge_with_existing_spec (existing table : PTable)
    (hwe : existing.wf) (hwt : table.wf)
    (hfe : "filename" ∈ existing.colnames) (hft : "filename" ∈ table.colnames) :
    merge_with_existing existing table = spec_merge existing table
      ∧ ∀ c, c ∈ (merge_with_existing existing table).colnames
          ↔ (c ∈ existing.colnames ∨ c ∈ table.colnames) := by
  have hnd : (dedupPreserve (existing.colnames ++ table.colnames)).Nodup :=
    dedupPreserve_nodup _
  have htab1 : (if 0 < table.rows.length then
        (⟨table.colnames, table.rows.filter (fun r =>
          decide (pyStr (rowGet table.colnames r "filename")
            ∉ (getColumn existing "filename").map pyStr))⟩ : PTable)
      else table)
      = ⟨table.colnames, spec_kept_rows existing table⟩ := by
    by_cases h0 : 0 < table.rows.length
    · rw [if_pos h0]
      rfl
    · rw [if_neg h0]
      have : table.rows = [] := by
        cases hr : table.rows with
        | nil => rfl
        | cons a l => rw [hr] at h0; simp at h0
      obtain ⟨ns, rs⟩ := table
      simp only at this
      subst this
      simp [spec_kept_rows]
  have hwt1 : (⟨table.colnames, spec_kept_rows existing table⟩ : PTable).wf := by
    intro r hr
    exact hwt r (List.mem_of_mem_filter hr)
  have hmain : merge_with_existing existing table = spec_merge existing table := by
    unfold merge_with_existing
    simp only [htab1]
    rw [projectTable_fill_eq existing _ hnd hwe,
      projectTable_fill_eq _ _ hnd hwt1]
    unfold spec_merge spec_union_columns
    simp only []
    by_cases h3 : 0 < ((⟨table.colnames, spec_kept_rows existing table⟩ : PTable).rows.map
        (spec_align_row table.colnames (dedupPreserve (existing.colnames ++ table.colnames)))).length
    · rw [if_pos h3]
    · rw [if_neg h3]
      have : (spec_kept_rows existing table).map (spec_align_row table.colnames
          (dedupPreserve (existing.colnames ++ table.colnames))) = [] := by
        rcases hk : (spec_kept_rows existing table).map (spec_align_row table.colnames
          (dedupPreserve (existing.colnames ++ table.colnames))) with _ | ⟨a, l⟩
        · rfl
        · exfalso
          apply h3
          show 0 < ((spec_kept_rows existing table).map _).length
          rw [hk]
          simp
      rw [this, List.append_nil]
  refine ⟨hmain, ?_⟩
  intro c
  rw [hmain]
  show c ∈ dedupPreserve (existing.colnames ++ table.colnames) ↔ _
  rw [dedupPreserve_mem, List.mem_append]

/-- Claim C5: on an append with differing column sets, the merge block
of `_write_catalog_table` equals the spec-level description: result
columns are the (first-occurrence) union of both column sets — no
column of either side is dropped — each side is backfilled with
type-appropriate defaults for the columns it lacks and projected to the
same column list, and the result rows are the existing rows followed by
the non-duplicate incoming rows. -/
theorem claim_C5_schema_union_merge (existing table : PTable)
    (hwe : existing.wf) (hwt : table.wf)
    (hfe : "filename" ∈ existing.colnames) (hft : "filename" ∈ table.colnames) :
    merge_with_existing existing table = spec_merge existing table
      ∧ ∀ c, c ∈ (merge_with_existing existing table).colnames
          ↔ (c ∈ existing.colnames ∨ c ∈ table.colnames) :=
  merge_with_existing_spec existing table hwe hwt hfe hft

/-- Witness for claim C5: an existing catalog with columns
`filename, sim` and an incoming table with columns `filename, snapshot`
(one duplicate filename `a`, one new filename `b`). -/
theorem claim_C5_schema_union_merge_witness :
    PTable.wf ⟨["filename", "sim"], [[Value.str "a", Value.int 50]]⟩
  ∧ PTable.wf ⟨["filename", "snapshot"],
      [[Value.str "a", Value.int 72], [Value.str "b", Value.int 91]]⟩
  ∧ (merge_with_existing ⟨["filename", "sim"], [[Value.str "a", Value.int 50]]⟩
        ⟨["filename", "snapshot"], [[Value.str "a", Value.int 72], [Value.str "b", Value.int 91]]⟩
      = spec_merge ⟨["filename", "sim"], [[Value.str "a", Value.int 50]]⟩
        ⟨["filename", "snapshot"], [[Value.str "a", Value.int 72], [Value.str "b", Value.int 91]]⟩
    ∧ ∀ c, c ∈ (merge_with_existing ⟨["filename", "sim"], [[Value.str "a", Value.int 50]]⟩
        ⟨["filename", "snapshot"],
          [[Value.str "a", Value.int 72], [Value.str "b", Value.int 91]]⟩).colnames
        ↔ (c ∈ (⟨["filename", "sim"], [[Value.str "a", Value.int 50]]⟩ : PTable).colnames
          ∨ c ∈ (⟨["filename", "snapshot"],
              [[Value.str "a", Value.int 72], [Value.str "b", Value.int 91]]⟩ : PTable).colnames)) := by
  have h1 : PTable.wf ⟨["filename", "sim"], [[Value.str "a", Value.int 50]]⟩ := by
    intro r hr
    fin_cases hr <;> rfl
  have h2 : PTable.wf ⟨["filename", "snapshot"],
      [[Value.str "a", Value.int 72], [Value.str "b", Value.int 91]]⟩ := by
    intro r hr
    fin_cases hr <;> rfl
  exact ⟨h1, h2, claim_C5_schema_union_merge _ _ h1 h2 (by decide) (by decide)⟩

/-! ## Claim C1: append idempotence -/

theorem catalog_column_order_nodup : CATALOG_COLUMN_ORDER.Nodup := by decide

theorem filename_mem_catalog_columns : "filename" ∈ CATALOG_COLUMN_ORDER := by decide

theorem foldl_addColumnVals_noop (g : String → List Value) (t : PTable) (cols : List String)
    (h : ∀ c ∈ cols, c ∈ t.colnames) :
    cols.foldl (fun acc col => if col ∈ acc.colnames then acc
      else addColumnVals acc col (g col)) t = t := by
  induction cols generalizing t with
  | nil => rfl
  | cons c cs ih =>
    have hc : c ∈ t.colnames := h c (by simp)
    simp only [List.foldl_cons, if_pos hc]
    exact ih t (fun x hx => h x (by simp [hx]))

theorem upgrade_existing_catalog_noop (t : PTable)
    (cache : String → String → Option MergerLabels)
    (h : ∀ c ∈ CATALOG_COLUMN_ORDER, c ∈ t.colnames) :
    upgrade_existing_catalog t cache = t := by
  have hf : "filename" ∈ t.colnames := h "filename" filename_mem_catalog_columns
  unfold upgrade_existing_catalog
  rw [if_neg (not_not_intro hf)]
  exact foldl_addColumnVals_noop _ t _ h

theorem build_catalog_table_wf (E : List CatalogEntry) : (build_catalog_table E).wf := by
  intro r hr
  unfold build_catalog_table at hr ⊢
  simp only [List.mem_map] at hr
  obtain ⟨e, _, rfl⟩ := hr
  simp

theorem build_catalog_table_filenames (E : List CatalogEntry) :
    (build_catalog_table E).rows.map (fun r => pyStr (rowGet CATALOG_COLUMN_ORDER r "filename"))
      = E.map CatalogEntry.filename := by
  unfold build_catalog_table
  simp only [List.map_map]
  apply List.map_congr_left
  intro e _
  simp only [Function.comp_apply]
  rw [rowGet_map _ _ filename_mem_catalog_columns]
  rfl

theorem spec_align_row_self (cols : List String) (f : String → Value) :
    spec_align_row cols cols (cols.map f) = cols.map f := by
  unfold spec_align_row
  apply List.map_congr_left
  intro c hc
  rw [if_pos hc, rowGet_map _ _ hc]

theorem spec_merge_build_self (E : List CatalogEntry) :
    spec_merge (build_catalog_table E) (build_catalog_table E) = build_catalog_table E := by
  have hunion : spec_union_columns CATALOG_COLUMN_ORDER CATALOG_COLUMN_ORDER
      = CATALOG_COLUMN_ORDER := by
    unfold spec_union_columns
    rw [dedupPreserve_append_self, dedupPreserve_of_nodup _ catalog_column_order_nodup]
  have hkept : spec_kept_rows (build_catalog_table E) (build_catalog_table E) = [] := by
    unfold spec_kept_rows
    rw [List.filter_eq_nil_iff]
    intro r hr
    simp only [decide_eq_true_eq, not_not]
    have hmem : pyStr (rowGet (build_catalog_table E).colnames r "filename")
        ∈ (build_catalog_table E).rows.map
            (fun r => pyStr (rowGet CATALOG_COLUMN_ORDER r "filename")) :=
      List.mem_map.mpr ⟨r, hr, rfl⟩
    show _ ∈ (getColumn (build_catalog_table E) "filename").map pyStr
    unfold getColumn
    rw [List.map_map]
    exact hmem
  have halign : (build_catalog_table E).rows.map
      (spec_align_row (build_catalog_table E).colnames
        (spec_union_columns (build_catalog_table E).colnames (build_catalog_table E).colnames))
      = (build_catalog_table E).rows := by
    show (build_catalog_table E).rows.map (spec_align_row CATALOG_COLUMN_ORDER
      (spec_union_columns CATALOG_COLUMN_ORDER CATALOG_COLUMN_ORDER)) = _
    rw [hunion]
    show List.map (spec_align_row CATALOG_COLUMN_ORDER CATALOG_COLUMN_ORDER)
        (List.map (fun e => CATALOG_COLUMN_ORDER.map (entryGet e)) E)
      = List.map (fun e => CATALOG_COLUMN_ORDER.map (entryGet e)) E
    rw [List.map_map]
    apply List.map_congr_left
    intro e _
    exact spec_align_row_self _ _
  unfold spec_merge
  rw [hkept, halign]
  show (⟨spec_union_columns CATALOG_COLUMN_ORDER CATALOG_COLUMN_ORDER,
    (build_catalog_table E).rows ++ List.map _ []⟩ : PTable) = _
  rw [hunion]
  simp [build_catalog_table]

/-- Claim C1: catalog append is idempotent.  For entries `E` with
pairwise-distinct filenames, writing `E` and then writing `E` again
with `catalog_append = True` over the written catalog yields exactly
the catalog of `E` again (incoming rows whose filename already exists
are dropped, existing rows win), and no filename appears twice in it. -/
theorem claim_C1_append_idempotent (E : List CatalogEntry)
    (cache : String → String → Option MergerLabels)
    (h : (E.map CatalogEntry.filename).Nodup) :
    write_catalog_table (build_catalog_table E) (some (build_catalog_table E)) true cache
        = build_catalog_table E
      ∧ ((build_catalog_table E).rows.map
          (fun r => pyStr (rowGet CATALOG_COLUMN_ORDER r "filename"))).Nodup := by
  constructor
  · show merge_with_existing (upgrade_existing_catalog (build_catalog_table E) cache)
        (build_catalog_table E) = build_catalog_table E
    rw [upgrade_existing_catalog_noop _ cache (fun c hc => hc)]
    rw [(merge_with_existing_spec _ _ (build_catalog_table_wf E) (build_catalog_table_wf E)
      filename_mem_catalog_columns filename_mem_catalog_columns).1]
    exact spec_merge_build_self E
  · rw [build_catalog_table_filenames]
    exact h

/-- Witness for claim C1 with two entries whose filenames differ. -/
theorem claim_C1_append_idempotent_witness :
    (([{ default_catalog_entry with filename := "a.fits" },
       { default_catalog_entry with filename := "b.fits" }].map CatalogEntry.filename).Nodup)
  ∧ (write_catalog_table
        (build_catalog_table [{ default_catalog_entry with filename := "a.fits" },
          { default_catalog_entry with filename := "b.fits" }])
        (some (build_catalog_table [{ default_catalog_entry with filename := "a.fits" },
          { default_catalog_entry with filename := "b.fits" }]))
        true (fun _ _ => none)
      = build_catalog_table [{ default_catalog_entry with filename := "a.fits" },
          { default_catalog_entry with filename := "b.fits" }]
    ∧ ((build_catalog_table [{ default_catalog_entry with filename := "a.fits" },
          { default_catalog_entry with filename := "b.fits" }]).rows.map
        (fun r => pyStr (rowGet CATALOG_COLUMN_ORDER r "filename"))).Nodup) := by
  have h : (([{ default_catalog_entry with filename := "a.fits" },
      { default_catalog_entry with filename := "b.fits" }].map CatalogEntry.filename)).Nodup := by
    decide
  exact ⟨h, claim_C1_append_idempotent _ (fun _ _ => none) h⟩

/-! ## Claim C9: upgrading is a pure column-addition -/

theorem zipWith_const_left {α β : Type} (l : List α) (m : List β)
    (h : l.length = m.length) (f : α → β → α) (hf : ∀ a b, f a b = a) :
    List.zipWith f l m = l := by
  induction l generalizing m with
  | nil => simp
  | cons a l ih =>
    cases m with
    | nil => simp at h
    | cons b m =>
      simp only [List.zipWith_cons_cons, hf]
      rw [ih m (by simpa using h)]

theorem zipWith_zipWith_right {α β : Type} (f : α → β → α) (g : α → β → α)
    (l : List α) (m : List β) :
    List.zipWith g (List.zipWith f l m) m
      = List.zipWith (fun a b => g (f a b) b) l m := by
  induction l generalizing m with
  | nil => simp
  | cons a l ih =>
    cases m with
    | nil => simp
    | cons b m => simp [ih]

theorem missingCols_snoc (ns : List String) (c : String) (cs : List String)
    (hc : c ∉ cs) : missingCols (ns ++ [c]) cs = missingCols ns cs := by
  unfold missingCols
  apply List.filter_congr
  intro x hx
  have hxc : x ≠ c := fun he => hc (he ▸ hx)
  simp [hxc]

theorem upgrade_fold_eq (entries : List CatalogEntry) (cols : List String) (t : PTable)
    (hnd : cols.Nodup) (hlen : t.rows.length = entries.length) :
    cols.foldl (fun acc col => if col ∈ acc.colnames then acc
      else addColumnVals acc col (entries.map (fun e => entryGet e col))) t
    = ⟨t.colnames ++ missingCols t.colnames cols,
       List.zipWith (fun r e => r ++ (missingCols t.colnames cols).map (entryGet e))
         t.rows entries⟩ := by
  induction cols generalizing t with
  | nil =>
    obtain ⟨ns, rs⟩ := t
    simp only [List.foldl_nil, missingCols, List.filter_nil, List.append_nil, List.map_nil]
    congr 1
    exact (zipWith_const_left rs entries hlen (fun a _ => a) (fun a b => rfl)).symm
  | cons c cs ih =>
    have hcs : cs.Nodup := hnd.of_cons
    have hcnot : c ∉ cs := (List.nodup_cons.mp hnd).1
    by_cases h : c ∈ t.colnames
    · simp only [List.foldl_cons, if_pos h]
      rw [ih t hcs hlen]
      have hm : missingCols t.colnames (c :: cs) = missingCols t.colnames cs := by
        simp [missingCols, h]
      rw [hm]
    · simp only [List.foldl_cons, if_neg h]
      have hrows : (addColumnVals t c (entries.map (fun e => entryGet e c))).rows
          = List.zipWith (fun r e => r ++ [entryGet e c]) t.rows entries := by
        unfold addColumnVals
        simp [List.zipWith_map_right]
      have hlen' : (addColumnVals t c (entries.map (fun e => entryGet e c))).rows.length
          = entries.length := by
        rw [hrows, List.length_zipWith, hlen, Nat.min_self]
      rw [ih _ hcs hlen']
      have hcols : (addColumnVals t c (entries.map (fun e => entryGet e c))).colnames
          = t.colnames ++ [c] := rfl
      have hm2 : missingCols t.colnames (c :: cs) = c :: missingCols t.colnames cs := by
        simp [missingCols, h]
      rw [hcols, missingCols_snoc _ _ _ hcnot, hm2, hrows, zipWith_zipWith_right]
      congr 1
      · simp
      · congr 1
        funext a b
        simp

theorem upgrade_parsed_entries_length (t : PTable)
    (cache : String → String → Option MergerLabels) :
    (upgrade_parsed_entries t cache).length = t.rows.length := by
  unfold upgrade_parsed_entries
  simp only [List.length_map, List.length_zip]
  by_cases h : "filter" ∈ t.colnames
  · simp [h, getColumn]
  · simp [h, getColumn]

theorem upgrade_existing_catalog_eq (t : PTable)
    (cache : String → String → Option MergerLabels) (hf : "filename" ∈ t.colnames) :
    upgrade_existing_catalog t cache
      = ⟨t.colnames ++ missingCols t.colnames CATALOG_COLUMN_ORDER,
         List.zipWith (fun r e =>
             r ++ (missingCols t.colnames CATALOG_COLUMN_ORDER).map (entryGet e))
           t.rows (upgrade_parsed_entries t cache)⟩ := by
  unfold upgrade_existing_catalog
  rw [if_neg (not_not_intro hf)]
  exact upgrade_fold_eq _ _ t catalog_column_order_nodup
    (upgrade_parsed_entries_length t cache).symm

/-- Claim C9: upgrading an existing catalog is a pure column-addition.
It returns the table unchanged when there is no `filename` column;
otherwise it appends exactly the schema columns that are absent (in
schema order), never changes the number of rows, and each original row
survives at its position as the prefix of the upgraded row — so no cell
of a column already present changes. -/
theorem claim_C9_upgrade_adds_columns_only (t : PTable)
    (cache : String → String → Option MergerLabels) (hwf : t.wf) :
    ("filename" ∉ t.colnames → upgrade_existing_catalog t cache = t)
  ∧ ("filename" ∈ t.colnames →
      (upgrade_existing_catalog t cache).colnames
          = t.colnames ++ CATALOG_COLUMN_ORDER.filter (fun c => decide (c ∉ t.colnames))
      ∧ (upgrade_existing_catalog t cache).rows.length = t.rows.length
      ∧ ∀ i (hi : i < t.rows.length) (hi2 : i < (upgrade_existing_catalog t cache).rows.length),
          ((upgrade_existing_catalog t cache).rows.get ⟨i, hi2⟩).take t.colnames.length
            = t.rows.get ⟨i, hi⟩) := by
  constructor
  · intro h
    unfold upgrade_existing_catalog
    rw [if_pos h]
  · intro hf
    have hlen : (upgrade_existing_catalog t cache).rows.length = t.rows.length := by
      rw [upgrade_existing_catalog_eq t cache hf]
      simp [List.length_zipWith, upgrade_parsed_entries_length]
    refine ⟨by rw [upgrade_existing_catalog_eq t cache hf]; rfl, hlen, ?_⟩
    intro i hi hi2
    have hrw : (upgrade_existing_catalog t cache).rows
        = List.zipWith (fun r e =>
            r ++ (missingCols t.colnames CATALOG_COLUMN_ORDER).map (entryGet e))
          t.rows (upgrade_parsed_entries t cache) :=
      congrArg PTable.rows (upgrade_existing_catalog_eq t cache hf)
    rw [List.get_eq_getElem, List.get_eq_getElem, List.getElem_of_eq hrw,
      List.getElem_zipWith]
    have hrowlen : (t.rows[i]).length = t.colnames.length :=
      hwf _ (List.getElem_mem hi)
    rw [List.take_left' hrowlen]

/-- Witness for claim C9: a one-row table holding only a `filename`
column. -/
theorem claim_C9_upgrade_adds_columns_only_witness :
    PTable.wf ⟨["filename"], [[Value.str "ignore_me.fits"]]⟩
  ∧ (("filename" ∉ (⟨["filename"], [[Value.str "ignore_me.fits"]]⟩ : PTable).colnames →
        upgrade_existing_catalog ⟨["filename"], [[Value.str "ignore_me.fits"]]⟩ (fun _ _ => none)
          = ⟨["filename"], [[Value.str "ignore_me.fits"]]⟩)
    ∧ ("filename" ∈ (⟨["filename"], [[Value.str "ignore_me.fits"]]⟩ : PTable).colnames →
        (upgrade_existing_catalog ⟨["filename"], [[Value.str "ignore_me.fits"]]⟩
            (fun _ _ => none)).colnames
          = (⟨["filename"], [[Value.str "ignore_me.fits"]]⟩ : PTable).colnames
              ++ CATALOG_COLUMN_ORDER.filter (fun c =>
                decide (c ∉ (⟨["filename"], [[Value.str "ignore_me.fits"]]⟩ : PTable).colnames))
        ∧ (upgrade_existing_catalog ⟨["filename"], [[Value.str "ignore_me.fits"]]⟩
            (fun _ _ => none)).rows.length
          = (⟨["filename"], [[Value.str "ignore_me.fits"]]⟩ : PTable).rows.length
        ∧ ∀ i (hi : i < (⟨["filename"], [[Value.str "ignore_me.fits"]]⟩ : PTable).rows.length)
            (hi2 : i < (upgrade_existing_catalog ⟨["filename"], [[Value.str "ignore_me.fits"]]⟩
              (fun _ _ => none)).rows.length),
            ((upgrade_existing_catalog ⟨["filename"], [[Value.str "ignore_me.fits"]]⟩
                (fun _ _ => none)).rows.get ⟨i, hi2⟩).take
              (⟨["filename"], [[Value.str "ignore_me.fits"]]⟩ : PTable).colnames.length
            = (⟨["filename"], [[Value.str "ignore_me.fits"]]⟩ : PTable).rows.get ⟨i, hi⟩)) := by
  have hwf : PTable.wf ⟨["filename"], [[Value.str "ignore_me.fits"]]⟩ := by
    intro r hr
    fin_cases hr
    rfl
  exact ⟨hwf, claim_C9_upgrade_adds_columns_only _ (fun _ _ => none) hwf⟩

/-! ## Claim C8: rebuilding the catalog from the split directory -/

/-- The glob pattern `*_hsc_realistic.fits` of
`build_catalog_from_split_images`: `*` matches any (possibly empty)
prefix, so a name matches exactly when it ends with the literal tail. -/
def glob_matches (name : String) : Bool := name.endsWith "_hsc_realistic.fits"

/-- The scan loop of `build_catalog_from_split_images` (lines 424-447):
skip a filename already seen in this scan, record it as seen, skip it
if the codec cannot parse it, otherwise build its catalog entry. -/
def scan_split_files (cache : String → String → Option MergerLabels) :
    List String → List String → List CatalogEntry
  | [], _ => []
  | f :: rest, seen =>
    if f ∈ seen then scan_split_files cache rest seen
    else match parse_split_filename f with
      | none => scan_split_files cache rest (f :: seen)
      | some parsed =>
        build_catalog_entry parsed.sim parsed.snapshot parsed.subhalo parsed.filter f cache
          :: scan_split_files cache rest (f :: seen)

/-- `build_catalog_from_split_images` from split.py, as the catalog
table it builds and returns: glob-matching file names of the split
directory, visited in sorted order, deduplicated by name, parsed by the
codec, one entry per surviving name.  (The subsequent write goes
through `write_catalog_table`.) -/
def build_catalog_from_split_images (files : List String)
    (cache : String → String → Option MergerLabels) : PTable :=
  build_catalog_table (scan_split_files cache
    (List.insertionSort (fun a b => a ≤ b) (files.filter glob_matches)) [])

/-- The filenames the scan keeps before parsing: first occurrence of
each name not seen yet. -/
def firstOccurrenceList : List String → List String → List String
  | [], _ => []
  | f :: rest, seen =>
    if f ∈ seen then firstOccurrenceList rest seen
    else f :: firstOccurrenceList rest (f :: seen)

theorem build_catalog_entry_filename (sim snapshot subhalo filt filename : String)
    (cache : String → String → Option MergerLabels) :
    (build_catalog_entry sim snapshot subhalo filt filename cache).filename = filename := by
  simp only [build_catalog_entry]
  split
  · rfl
  · split
    · rw [apply_merger_labels_filename]
    · rfl

theorem scan_split_files_map_filename (cache : String → String → Option MergerLabels)
    (fs : List String) : ∀ seen,
    (scan_split_files cache fs seen).map CatalogEntry.filename
      = (firstOccurrenceList fs seen).filter (fun f => (parse_split_filename f).isSome) := by
  induction fs with
  | nil => intro seen; rfl
  | cons f rest ih =>
    intro seen
    by_cases hseen : f ∈ seen
    · simp only [scan_split_files, firstOccurrenceList, if_pos hseen]
      exact ih seen
    · simp only [scan_split_files, firstOccurrenceList, if_neg hseen]
      cases hp : parse_split_filename f with
      | none =>
        simp only [List.filter_cons, hp, Option.isSome_none]
        exact ih (f :: seen)
      | some parsed =>
        simp only [List.filter_cons, hp, Option.isSome_some, List.map_cons,
          build_catalog_entry_filename]
        rw [ih (f :: seen)]
        simp

theorem mem_firstOccurrenceList (fs : List String) : ∀ seen x,
    x ∈ firstOccurrenceList fs seen ↔ (x ∈ fs ∧ x ∉ seen) := by
  induction fs with
  | nil => intro seen x; simp [firstOccurrenceList]
  | cons f rest ih =>
    intro seen x
    by_cases hseen : f ∈ seen
    · rw [firstOccurrenceList, if_pos hseen, ih]
      constructor
      · rintro ⟨hx, hns⟩
        exact ⟨by simp [hx], hns⟩
      · rintro ⟨hx, hns⟩
        rcases List.mem_cons.mp hx with hx | hx
        · exact absurd (hx ▸ hseen) hns
        · exact ⟨hx, hns⟩
    · rw [firstOccurrenceList, if_neg hseen]
      by_cases hx : x = f
      · subst hx
        simp [hseen]
      · rw [List.mem_cons]
        constructor
        · rintro (h | h)
          · exact absurd h hx
          · obtain ⟨h1, h2⟩ := (ih (f :: seen) x).mp h
            exact ⟨by simp [h1], fun hc => h2 (by simp [hc])⟩
        · rintro ⟨h1, h2⟩
          refine Or.inr ((ih (f :: seen) x).mpr ⟨?_, ?_⟩)
          · rcases List.mem_cons.mp h1 with h | h
            · exact absurd h hx
            · exact h
          · intro hc
            rcases List.mem_cons.mp hc with h | h
            · exact hx h
            · exact h2 h

theorem firstOccurrenceList_nodup (fs : List String) : ∀ seen,
    (firstOccurrenceList fs seen).Nodup := by
  induction fs with
  | nil => intro seen; simp [firstOccurrenceList]
  | cons f rest ih =>
    intro seen
    by_cases hseen : f ∈ seen
    · rw [firstOccurrenceList, if_pos hseen]
      exact ih seen
    · rw [firstOccurrenceList, if_neg hseen]
      refine List.nodup_cons.mpr ⟨?_, ih (f :: seen)⟩
      intro hf
      exact ((mem_firstOccurrenceList rest (f :: seen) f).mp hf).2 (by simp)

/-- Claim C8: rebuilding the catalog from a set of files produces
exactly one row per distinct filename that matches the split-output
glob and parses under the codec — duplicate names contribute one row,
unparseable names none — and, because files are visited in sorted
order, the result is the same for any enumeration order of the files. -/
theorem claim_C8_rebuild_one_row_per_name (files : List String)
    (cache : String → String → Option MergerLabels) :
    ((build_catalog_from_split_images files cache).rows.map
        (fun r => pyStr (rowGet CATALOG_COLUMN_ORDER r "filename"))).Nodup
  ∧ (∀ f, f ∈ (build_catalog_from_split_images files cache).rows.map
        (fun r => pyStr (rowGet CATALOG_COLUMN_ORDER r "filename"))
      ↔ (f ∈ files ∧ glob_matches f = true ∧ (parse_split_filename f).isSome = true))
  ∧ (∀ files', files.Perm files' →
      build_catalog_from_split_images files cache
        = build_catalog_from_split_images files' cache) := by
  have hnames : (build_catalog_from_split_images files cache).rows.map
      (fun r => pyStr (rowGet CATALOG_COLUMN_ORDER r "filename"))
      = (firstOccurrenceList
          (List.insertionSort (fun a b => a ≤ b) (files.filter glob_matches)) []).filter
          (fun f => (parse_split_filename f).isSome) := by
    unfold build_catalog_from_split_images
    rw [build_catalog_table_filenames, scan_split_files_map_filename]
  refine ⟨?_, ?_, ?_⟩
  · rw [hnames]
    exact (firstOccurrenceList_nodup _ []).filter _
  · intro f
    rw [hnames, List.mem_filter, mem_firstOccurrenceList,
      (List.perm_insertionSort (fun a b => a ≤ b) (files.filter glob_matches)).mem_iff,
      List.mem_filter]
    constructor
    · rintro ⟨⟨⟨h1, h2⟩, _⟩, h3⟩
      exact ⟨h1, h2, h3⟩
    · rintro ⟨h1, h2, h3⟩
      exact ⟨⟨⟨h1, h2⟩, by simp⟩, h3⟩
  · intro files' hperm
    unfold build_catalog_from_split_images
    haveI : IsAntisymm String (fun a b => a ≤ b) :=
      ⟨fun a b h1 h2 => le_antisymm h1 h2⟩
    have hsort : List.insertionSort (fun a b => a ≤ b) (files.filter glob_matches)
        = List.insertionSort (fun a b => a ≤ b) (files'.filter glob_matches) := by
      exact List.eq_of_perm_of_sorted
        ((List.perm_insertionSort _ _).trans ((hperm.filter _).trans
          (List.perm_insertionSort _ _).symm))
        (List.sorted_insertionSort _ _) (List.sorted_insertionSort _ _)
    rw [hsort]

/-- Witness for claim C8 with a duplicate name, an unparseable name and
a parseable name, in two enumeration orders. -/
theorem claim_C8_rebuild_one_row_per_name_witness :
    (["50_72_3_G_v2_hsc_realistic.fits", "ignore_me.fits",
        "50_72_3_G_v2_hsc_realistic.fits"] : List String).Perm
      ["ignore_me.fits", "50_72_3_G_v2_hsc_realistic.fits", "50_72_3_G_v2_hsc_realistic.fits"]
  ∧ ((build_catalog_from_split_images
        ["50_72_3_G_v2_hsc_realistic.fits", "ignore_me.fits",
          "50_72_3_G_v2_hsc_realistic.fits"] (fun _ _ => none)).rows.map
      (fun r => pyStr (rowGet CATALOG_COLUMN_ORDER r "filename"))).Nodup
  ∧ build_catalog_from_split_images
      ["50_72_3_G_v2_hsc_realistic.fits", "ignore_me.fits",
        "50_72_3_G_v2_hsc_realistic.fits"] (fun _ _ => none)
    = build_catalog_from_split_images
      ["ignore_me.fits", "50_72_3_G_v2_hsc_realistic.fits",
        "50_72_3_G_v2_hsc_realistic.fits"] (fun _ _ => none) := by
  have hperm : (["50_72_3_G_v2_hsc_realistic.fits", "ignore_me.fits",
      "50_72_3_G_v2_hsc_realistic.fits"] : List String).Perm
      ["ignore_me.fits", "50_72_3_G_v2_hsc_realistic.fits",
        "50_72_3_G_v2_hsc_realistic.fits"] := List.Perm.swap _ _ _
  refine ⟨hperm, ?_, ?_⟩
  · exact (claim_C8_rebuild_one_row_per_name _ (fun _ _ => none)).1
  · exact (claim_C8_rebuild_one_row_per_name _ (fun _ _ => none)).2.2 _ hperm

/-! ## Pipeline model: URL parsing, retries and the batch loop
(split.py lines 552-679) -/

/-- `re.search(r'TNG(\d+)', token)`: the digit group of the leftmost
occurrence of `TNG` followed by at least one digit. -/
def findTNGDigits : List Char → Option (List Char)
  | 'T' :: 'N' :: 'G' :: rest =>
    if (spanDigits rest).1 = [] then findTNGDigits ('N' :: 'G' :: rest)
    else some (spanDigits rest).1
  | _ :: rest => findTNGDigits rest
  | [] => none
termination_by cs => cs.length
decreasing_by all_goals simp_arith

/-- `re.search(r'(v\d+)', fn)`: the leftmost `v` followed by at least
one digit, with its digits. -/
def findVDigits : List Char → Option (List Char)
  | 'v' :: rest =>
    if (spanDigits rest).1 = [] then findVDigits rest
    else some ('v' :: (spanDigits rest).1)
  | _ :: rest => findVDigits rest
  | [] => none
termination_by cs => cs.length
decreasing_by all_goals simp_arith

/-- `u.split('/')` over the characters of a string: the (possibly
empty) segments between separator occurrences; the empty string yields
one empty segment, as in Python. -/
def splitOnChar (sep : Char) : List Char → List (List Char)
  | [] => [[]]
  | c :: rest =>
    if c = sep then [] :: splitOnChar sep rest
    else match splitOnChar sep rest with
      | [] => [[c]]
      | h :: t => (c :: h) :: t

/-- `parse_url` from `download_and_split_hsc_images` (lines 566-576):
split on `/`, read the fixed positional segments (4: sim token,
6: snapshot, 8: subhalo, last: source filename), extract the sim number
and the version by regex search with the literal fallbacks `TNG?` and
`v?`.  A URL with too few segments raises `IndexError` in Python, which
aborts the whole batch; the model returns `none` there. -/
def parse_url (u : String) : Option (String × String × String × String) :=
  let parts := (splitOnChar '/' u.data).map String.mk
  match parts.get? 4, parts.get? 6, parts.get? 8, parts.getLast? with
  | some simTok, some snapshot, some subhalo, some fn =>
    let sim := match findTNGDigits simTok.data with
      | some ds => String.mk ds
      | none => "TNG?"
    let version := match findVDigits fn.data with
      | some vs => String.mk vs
      | none => "v?"
    some (sim, snapshot, subhalo, version)
  | _, _, _, _ => none

/-- Result of one `download_with_retries` call: the outcome (`.ok` for
a successful response, `.error (some e)` when the loop exhausts with
last error `e`, `.error none` for the `raise None` that a zero
`max_retries` would produce), the sleeps performed between attempts,
and the number of attempts made. -/
structure RetryResult where
  outcome : Except (Option String) Unit
  sleeps : List ℚ
  attempts : ℕ
deriving Repr

/-- The retry loop body, one recursion step per remaining allowed
attempt: success returns immediately; a failure on a non-final attempt
sleeps `retry_backoff_sec * attempt_number` and retries; a failure on
the final attempt stops with that error. -/
def retryLoop (oracle : ℕ → Option String) (backoff : ℚ) :
    ℕ → ℕ → Option String → RetryResult
  | _, 0, last => ⟨.error last, [], 0⟩
  | attempt, remaining + 1, last =>
    match oracle attempt with
    | none => ⟨.ok (), [], 1⟩
    | some e =>
      if remaining = 0 then ⟨.error (some e), [], 1⟩
      else
        let r := retryLoop oracle backoff (attempt + 1) remaining (some e)
        ⟨r.outcome, backoff * (attempt : ℚ) :: r.sleeps, r.attempts + 1⟩

/-- `download_with_retries` from split.py: up to `max_retries` attempts
starting at attempt 1, where `oracle n` is the outcome of the `n`-th
`requests.get` (+ `raise_for_status`): `none` for success, `some e` for
a raised `RequestException` with text `e`. -/
def download_with_retries (oracle : ℕ → Option String) (max_retries : ℕ)
    (backoff : ℚ) : RetryResult :=
  retryLoop oracle backoff 1 max_retries none

/-- The externally visible effects of one batch run: write events for
parent and split files and parent removals (each tagged with the URL
that caused it), the recorded failed-URL lines, and the collected
catalog entries. -/
structure PipelineResult where
  parent_writes : List (String × String)
  split_writes : List (String × String)
  removed_parents : List (String × String)
  failed_urls : List String
  entries : List CatalogEntry
deriving DecidableEq, Repr

def PipelineResult.empty : PipelineResult := ⟨[], [], [], [], []⟩

def PipelineResult.append (a b : PipelineResult) : PipelineResult :=
  ⟨a.parent_writes ++ b.parent_writes, a.split_writes ++ b.split_writes,
   a.removed_parents ++ b.removed_parents, a.failed_urls ++ b.failed_urls,
   a.entries ++ b.entries⟩

/-- Environment model for one run: per-URL per-attempt download
outcome, the extension names present in a downloaded parent file, and
whether opening/splitting the parent raises (`fits.open` and the
per-extension writes are in one `try`). -/
structure NetModel where
  attempt_err : String → ℕ → Option String
  extnames : String → List String
  split_err : String → Option String

/-- `str(exc)` of the raised error; the `none` case is the `TypeError`
text of `raise None` (only reachable with `max_retries = 0`). -/
def errText : Option String → String
  | some e => e
  | none => "TypeError: exceptions must derive from BaseException"

/-- The five fixed filter tags of the split loop. -/
def hsc_filter_tags : List String := ["G", "R", "I", "Z", "Y"]

/-- One iteration of the main loop of `download_and_split_hsc_images`
(lines 596-659): parse the URL (an IndexError there aborts the batch:
`none`); download with retries, on exhaustion record `url\terror` and
continue with no writes; write the parent; unless parent-only, split
into one output per present `SUBARU_HSC.<filter>` extension (recording
a catalog entry per output when a catalog is being built), recording a
split-stage exception as a failure, and finally remove the parent if
requested. -/
def process_url (net : NetModel) (max_retries : ℕ) (backoff : ℚ)
    (parent_file_only catalog_enabled remove_parent : Bool)
    (cache : String → String → Option MergerLabels) (u : String) :
    Option PipelineResult :=
  match parse_url u with
  | none => none
  | some (sim, snapshot, subhalo, version) =>
    let fname_parent :=
      sim ++ "_" ++ snapshot ++ "_" ++ subhalo ++ "_" ++ version ++ "_parent.fits"
    match (download_with_retries (net.attempt_err u) max_retries backoff).outcome with
    | .error e =>
      some { PipelineResult.empty with failed_urls := [u ++ "\t" ++ errText e] }
    | .ok _ =>
      if parent_file_only then
        some { PipelineResult.empty with parent_writes := [(u, fname_parent)] }
      else match net.split_err u with
        | some e =>
          some { PipelineResult.empty with
            parent_writes := [(u, fname_parent)]
            failed_urls := [u ++ "\t" ++ e] }
        | none =>
          let present := hsc_filter_tags.filter (fun filt =>
            (net.extnames u).contains ("SUBARU_HSC." ++ filt))
          some { PipelineResult.empty with
            parent_writes := [(u, fname_parent)]
            split_writes := present.map (fun filt =>
              (u, sim ++ "_" ++ snapshot ++ "_" ++ subhalo ++ "_" ++ filt ++ "_"
                ++ version ++ "_hsc_realistic.fits"))
            removed_parents := if remove_parent then [(u, fname_parent)] else []
            entries := if catalog_enabled then present.map (fun filt =>
              build_catalog_entry sim snapshot subhalo filt
                (sim ++ "_" ++ snapshot ++ "_" ++ subhalo ++ "_" ++ filt ++ "_"
                  ++ version ++ "_hsc_realistic.fits") cache) else [] }

/-- The sequential main loop over the batch: per-URL effects
concatenated in order; an unparseable URL aborts the whole batch with
the Python `IndexError`. -/
def run_batch (net : NetModel) (max_retries : ℕ) (backoff : ℚ)
    (parent_file_only catalog_enabled remove_parent : Bool)
    (cache : String → String → Option MergerLabels) :
    List String → Except String PipelineResult
  | [] => .ok PipelineResult.empty
  | u :: rest =>
    match process_url net max_retries backoff parent_file_only catalog_enabled
        remove_parent cache u with
    | none => .error "IndexError"
    | some r =>
      match run_batch net max_retries backoff parent_file_only catalog_enabled
          remove_parent cache rest with
      | .ok rr => .ok (r.append rr)
      | .error e => .error e

/-! ## Claim C7: bounded retries with linear backoff -/

theorem retryLoop_attempts_le (oracle : ℕ → Option String) (backoff : ℚ) :
    ∀ remaining attempt last,
      (retryLoop oracle backoff attempt remaining last).attempts ≤ remaining := by
  intro remaining
  induction remaining with
  | zero => intro attempt last; simp [retryLoop]
  | succ r ih =>
    intro attempt last
    rw [retryLoop]
    split
    · show (1 : ℕ) ≤ r + 1
      omega
    · rename_i e heq
      by_cases hr : r = 0
      · rw [if_pos hr]
        show (1 : ℕ) ≤ r + 1
        omega
      · rw [if_neg hr]
        have := ih (attempt + 1) (some e)
        show (retryLoop oracle backoff (attempt + 1) r (some e)).attempts + 1 ≤ r + 1
        omega

theorem retryLoop_all_fail (oracle : ℕ → Option String) (backoff : ℚ) :
    ∀ remaining attempt last, 1 ≤ remaining →
      (∀ n, attempt ≤ n → n < attempt + remaining → (oracle n).isSome) →
      ∃ e, oracle (attempt + remaining - 1) = some e
        ∧ retryLoop oracle backoff attempt remaining last
          = ⟨.error (some e),
             (List.range (remaining - 1)).map (fun i => backoff * ((attempt + i : ℕ) : ℚ)),
             remaining⟩ := by
  intro remaining
  induction remaining with
  | zero => intro attempt last h; omega
  | succ r ih =>
    intro attempt last _ hfail
    have h0 : (oracle attempt).isSome :=
      hfail attempt (le_refl _) (by omega)
    obtain ⟨e0, he0⟩ := Option.isSome_iff_exists.mp h0
    by_cases hr : r = 0
    · subst hr
      refine ⟨e0, by simpa using he0, ?_⟩
      rw [retryLoop, he0]
      simp
    · have hr1 : 1 ≤ r := by omega
      obtain ⟨e, he, hrec⟩ := ih (attempt + 1) (some e0) hr1
        (fun n hn hn2 => hfail n (by omega) (by omega))
      refine ⟨e, by have : attempt + 1 + r - 1 = attempt + (r + 1) - 1 := by omega
                    rw [← this]; exact he, ?_⟩
      have hrange : (List.range (r + 1 - 1)).map (fun i => backoff * ((attempt + i : ℕ) : ℚ))
          = backoff * ((attempt : ℕ) : ℚ)
            :: (List.range (r - 1)).map (fun i => backoff * ((attempt + 1 + i : ℕ) : ℚ)) := by
        have h1 : r + 1 - 1 = (r - 1) + 1 := by omega
        rw [h1, List.range_succ_eq_map, List.map_cons, List.map_map]
        have hhead : backoff * ((attempt + 0 : ℕ) : ℚ) = backoff * ((attempt : ℕ) : ℚ) := by
          norm_num
        have htail : (List.range (r - 1)).map
              ((fun i => backoff * ((attempt + i : ℕ) : ℚ)) ∘ Nat.succ)
            = (List.range (r - 1)).map (fun i => backoff * ((attempt + 1 + i : ℕ) : ℚ)) := by
          refine List.map_congr_left ?_
          intro i _
          simp only [Function.comp_apply]
          exact congrArg (fun n : ℕ => backoff * (n : ℚ)) (by omega)
        simp only [hhead, htail]
      simp only [retryLoop, he0, if_neg hr, hrec, hrange]

theorem process_url_isSome (net : NetModel) (max_retries : ℕ) (backoff : ℚ)
    (parent_file_only catalog_enabled remove_parent : Bool)
    (cache : String → String → Option MergerLabels) (u : String)
    (h : (parse_url u).isSome) :
    (process_url net max_retries backoff parent_file_only catalog_enabled
      remove_parent cache u).isSome := by
  unfold process_url
  obtain ⟨⟨sim, snapshot, subhalo, version⟩, hp⟩ := Option.isSome_iff_exists.mp h
  rw [hp]
  cases (download_with_retries (net.attempt_err u) max_retries backoff).outcome with
  | error e => simp
  | ok _ =>
    by_cases hpo : parent_file_only
    · simp [hpo]
    · simp only [Bool.not_eq_true] at hpo
      cases net.split_err u with
      | some e => simp [hpo]
      | none => simp [hpo]

/-- Claim C7: the per-URL download makes at most `max_retries` attempts;
when every one of the `max_retries` attempts fails, after the `n`-th
failed attempt (for `n < max_retries`) it sleeps
`retry_backoff_sec * n`, with no sleep after the final attempt, and it
raises the error of the last attempt; and a URL whose parse succeeded
never aborts the batch loop, whatever the network does — the error is
caught at the per-URL level. -/
theorem claim_C7_retry_linear_backoff (oracle : ℕ → Option String) (max_retries : ℕ)
    (backoff : ℚ) :
    (download_with_retries oracle max_retries backoff).attempts ≤ max_retries
  ∧ (1 ≤ max_retries → (∀ n, 1 ≤ n → n ≤ max_retries → (oracle n).isSome) →
      ∃ e, oracle max_retries = some e
        ∧ download_with_retries oracle max_retries backoff
          = ⟨.error (some e),
             (List.range (max_retries - 1)).map (fun i => backoff * ((1 + i : ℕ) : ℚ)),
             max_retries⟩)
  ∧ (∀ (net : NetModel) (maxr : ℕ) (bo : ℚ) (po ce rp : Bool)
        (cache : String → String → Option MergerLabels) (u : String),
      (parse_url u).isSome → (process_url net maxr bo po ce rp cache u).isSome) := by
  refine ⟨retryLoop_attempts_le oracle backoff max_retries 1 none, ?_, ?_⟩
  · intro hmax hfail
    obtain ⟨e, he, hloop⟩ := retryLoop_all_fail oracle backoff max_retries 1 none hmax
      (fun n hn hn2 => hfail n hn (by omega))
    refine ⟨e, ?_, ?_⟩
    · have : 1 + max_retries - 1 = max_retries := by omega
      rw [← this]
      exact he
    · exact hloop
  · exact fun net maxr bo po ce rp cache u h =>
      process_url_isSome net maxr bo po ce rp cache u h

/-- Witness for claim C7: three failing attempts with backoff 2 sleep
2*1 then 2*2 seconds and raise the last error; a parseable URL with a
dead network still yields a per-URL result. -/
theorem claim_C7_retry_linear_backoff_witness :
    (1 : ℕ) ≤ 3
  ∧ (∀ n, 1 ≤ n → n ≤ 3 → ((fun _ => some "boom" : ℕ → Option String) n).isSome)
  ∧ (∃ e, (fun _ => some "boom" : ℕ → Option String) 3 = some e
      ∧ download_with_retries (fun _ => some "boom") 3 2
        = ⟨.error (some e), (List.range 2).map (fun i => 2 * ((1 + i : ℕ) : ℚ)), 3⟩)
  ∧ (parse_url "http://x/api/TNG50-1/snapshots/72/subhalos/3/skirt/f_v2.fits").isSome := by
  have h1 : (1 : ℕ) ≤ 3 := by omega
  have h2 : ∀ n, 1 ≤ n → n ≤ 3 → ((fun _ => some "boom" : ℕ → Option String) n).isSome := by
    intro n _ _
    rfl
  exact ⟨h1, h2,
    (claim_C7_retry_linear_backoff (fun _ => some "boom") 3 2).2.1 h1 h2,
    by decide⟩

/-! ## Claim C6: a URL that fails every attempt is recorded and isolated -/

theorem PipelineResult.empty_append (b : PipelineResult) :
    PipelineResult.empty.append b = b := by
  obtain ⟨b1, b2, b3, b4, b5⟩ := b
  simp [PipelineResult.append, PipelineResult.empty]

theorem PipelineResult.append_assoc (a b c : PipelineResult) :
    (a.append b).append c = a.append (b.append c) := by
  simp [PipelineResult.append]

theorem run_batch_append (net : NetModel) (max_retries : ℕ) (backoff : ℚ)
    (parent_file_only catalog_enabled remove_parent : Bool)
    (cache : String → String → Option MergerLabels) :
    ∀ (l1 l2 : List String) (r1 r2 : PipelineResult),
      run_batch net max_retries backoff parent_file_only catalog_enabled remove_parent cache l1
        = .ok r1 →
      run_batch net max_retries backoff parent_file_only catalog_enabled remove_parent cache l2
        = .ok r2 →
      run_batch net max_retries backoff parent_file_only catalog_enabled remove_parent cache
        (l1 ++ l2) = .ok (r1.append r2) := by
  intro l1
  induction l1 with
  | nil =>
    intro l2 r1 r2 h1 h2
    rw [run_batch] at h1
    injection h1 with h1
    subst h1
    rw [List.nil_append, h2, PipelineResult.empty_append]
  | cons v rest ih =>
    intro l2 r1 r2 h1 h2
    rw [run_batch] at h1
    rw [List.cons_append, run_batch]
    cases hpv : process_url net max_retries backoff parent_file_only catalog_enabled
        remove_parent cache v with
    | none => rw [hpv] at h1; cases h1
    | some p =>
      rw [hpv] at h1
      cases hrest : run_batch net max_retries backoff parent_file_only catalog_enabled
          remove_parent cache rest with
      | error e => rw [hrest] at h1; cases h1
      | ok rr =>
        rw [hrest] at h1
        injection h1 with h1
        subst h1
        rw [ih l2 rr r2 hrest h2, PipelineResult.append_assoc]

theorem run_batch_ok_of_parse (net : NetModel) (max_retries : ℕ) (backoff : ℚ)
    (parent_file_only catalog_enabled remove_parent : Bool)
    (cache : String → String → Option MergerLabels) :
    ∀ urls, (∀ v ∈ urls, (parse_url v).isSome) →
      ∃ r, run_batch net max_retries backoff parent_file_only catalog_enabled
        remove_parent cache urls = .ok r := by
  intro urls
  induction urls with
  | nil => exact fun _ => ⟨PipelineResult.empty, rfl⟩
  | cons v rest ih =>
    intro hall
    obtain ⟨p, hp⟩ := Option.isSome_iff_exists.mp
      (process_url_isSome net max_retries backoff parent_file_only catalog_enabled
        remove_parent cache v (hall v (by simp)))
    obtain ⟨r, hr⟩ := ih (fun w hw => hall w (by simp [hw]))
    exact ⟨p.append r, by rw [run_batch, hp, hr]⟩

theorem retryLoop_outcome_error (oracle : ℕ → Option String) (backoff : ℚ) :
    ∀ remaining attempt last,
      (∀ n, attempt ≤ n → n < attempt + remaining → (oracle n).isSome) →
      ∃ oe, (retryLoop oracle backoff attempt remaining last).outcome = .error oe := by
  intro remaining
  induction remaining with
  | zero => intro attempt last _; exact ⟨last, rfl⟩
  | succ r ih =>
    intro attempt last hfail
    obtain ⟨e0, he0⟩ := Option.isSome_iff_exists.mp
      (hfail attempt (le_refl _) (by omega))
    by_cases hr : r = 0
    · subst hr
      rw [retryLoop, he0]
      exact ⟨some e0, rfl⟩
    · obtain ⟨oe, hoe⟩ := ih (attempt + 1) (some e0)
        (fun n hn hn2 => hfail n (by omega) (by omega))
      rw [retryLoop, he0]
      simp only [if_neg hr]
      exact ⟨oe, hoe⟩

theorem process_url_download_failed (net : NetModel) (max_retries : ℕ) (backoff : ℚ)
    (parent_file_only catalog_enabled remove_parent : Bool)
    (cache : String → String → Option MergerLabels) (u : String)
    (hps : (parse_url u).isSome) (hmax : 1 ≤ max_retries)
    (hfail : ∀ n, 1 ≤ n → n ≤ max_retries → (net.attempt_err u n).isSome) :
    ∃ e, net.attempt_err u max_retries = some e
      ∧ process_url net max_retries backoff parent_file_only catalog_enabled
          remove_parent cache u
        = some { PipelineResult.empty with failed_urls := [u ++ "\t" ++ e] } := by
  obtain ⟨q, hq⟩ := Option.isSome_iff_exists.mp hps
  obtain ⟨sim, snapshot, subhalo, version⟩ := q
  obtain ⟨e, he, hloop⟩ := retryLoop_all_fail (net.attempt_err u) backoff max_retries 1
    none hmax (fun n hn hn2 => hfail n hn (by omega))
  have he' : net.attempt_err u max_retries = some e := by
    have : 1 + max_retries - 1 = max_retries := by omega
    rw [← this]
    exact he
  refine ⟨e, he', ?_⟩
  unfold process_url
  rw [hq]
  have houtcome : (download_with_retries (net.attempt_err u) max_retries backoff).outcome
      = .error (some e) := by
    unfold download_with_retries
    rw [hloop]
  simp only [houtcome]
  rfl

theorem process_url_no_writes_of_fail (net : NetModel) (max_retries : ℕ) (backoff : ℚ)
    (parent_file_only catalog_enabled remove_parent : Bool)
    (cache : String → String → Option MergerLabels) (u : String)
    (hfail : ∀ n, 1 ≤ n → n ≤ max_retries → (net.attempt_err u n).isSome) :
    ∀ r, process_url net max_retries backoff parent_file_only catalog_enabled
        remove_parent cache u = some r →
      r.parent_writes = [] ∧ r.split_writes = [] := by
  intro r hr
  unfold process_url at hr
  cases hq : parse_url u with
  | none => rw [hq] at hr; cases hr
  | some q =>
    rw [hq] at hr
    obtain ⟨sim, snapshot, subhalo, version⟩ := q
    obtain ⟨oe, hoe⟩ := retryLoop_outcome_error (net.attempt_err u) backoff max_retries 1
      none (fun n hn hn2 => hfail n hn (by omega))
    have houtcome : (download_with_retries (net.attempt_err u) max_retries backoff).outcome
        = .error oe := hoe
    simp only [houtcome] at hr
    injection hr with hr
    subst hr
    exact ⟨rfl, rfl⟩

theorem process_url_writes_tag (net : NetModel) (max_retries : ℕ) (backoff : ℚ)
    (parent_file_only catalog_enabled remove_parent : Bool)
    (cache : String → String → Option MergerLabels) (v : String) (r : PipelineResult)
    (h : process_url net max_retries backoff parent_file_only catalog_enabled
      remove_parent cache v = some r) :
    (∀ w fn, (w, fn) ∈ r.parent_writes → w = v)
      ∧ (∀ w fn, (w, fn) ∈ r.split_writes → w = v) := by
  unfold process_url at h
  cases hq : parse_url v with
  | none => rw [hq] at h; cases h
  | some q =>
    rw [hq] at h
    obtain ⟨sim, snapshot, subhalo, version⟩ := q
    cases houtcome : (download_with_retries (net.attempt_err v) max_retries backoff).outcome with
    | error e =>
      simp only [houtcome] at h
      injection h with h
      subst h
      constructor <;> intro w fn hw <;> simp [PipelineResult.empty] at hw
    | ok _ =>
      simp only [houtcome] at h
      by_cases hpo : parent_file_only
      · rw [if_pos hpo] at h
        injection h with h
        subst h
        constructor <;> intro w fn hw
        · simp [PipelineResult.empty] at hw
          exact hw.1
        · simp [PipelineResult.empty] at hw
      · rw [if_neg hpo] at h
        cases hse : net.split_err v with
        | some e =>
          rw [hse] at h
          injection h with h
          subst h
          constructor <;> intro w fn hw
          · simp [PipelineResult.empty] at hw
            exact hw.1
          · simp [PipelineResult.empty] at hw
        | none =>
          rw [hse] at h
          injection h with h
          subst h
          constructor <;> intro w fn hw
          · simp [PipelineResult.empty] at hw
            exact hw.1
          · simp [PipelineResult.empty] at hw
            obtain ⟨filt, _, hwf, _⟩ := hw
            exact hwf.symm

theorem run_batch_no_writes_for_url (net : NetModel) (max_retries : ℕ) (backoff : ℚ)
    (parent_file_only catalog_enabled remove_parent : Bool)
    (cache : String → String → Option MergerLabels) (u : String)
    (hfail : ∀ n, 1 ≤ n → n ≤ max_retries → (net.attempt_err u n).isSome) :
    ∀ urls r, run_batch net max_retries backoff parent_file_only catalog_enabled
        remove_parent cache urls = .ok r →
      ∀ fn, (u, fn) ∉ r.parent_writes ∧ (u, fn) ∉ r.split_writes := by
  intro urls
  induction urls with
  | nil =>
    intro r hr fn
    rw [run_batch] at hr
    injection hr with hr
    subst hr
    simp [PipelineResult.empty]
  | cons v rest ih =>
    intro r hr fn
    rw [run_batch] at hr
    cases hpv : process_url net max_retries backoff parent_file_only catalog_enabled
        remove_parent cache v with
    | none => rw [hpv] at hr; cases hr
    | some p =>
      rw [hpv] at hr
      cases hrest : run_batch net max_retries backoff parent_file_only catalog_enabled
          remove_parent cache rest with
      | error e => rw [hrest] at hr; cases hr
      | ok rr =>
        rw [hrest] at hr
        injection hr with hr
        subst hr
        obtain ⟨ih1, ih2⟩ := ih rr hrest fn
        have hp : ∀ fn2, (u, fn2) ∉ p.parent_writes ∧ (u, fn2) ∉ p.split_writes := by
          intro fn2
          by_cases hvu : v = u
          · subst hvu
            obtain ⟨h1, h2⟩ := process_url_no_writes_of_fail net max_retries backoff
              parent_file_only catalog_enabled remove_parent cache v hfail p hpv
            rw [h1, h2]
            simp
          · obtain ⟨ht1, ht2⟩ := process_url_writes_tag net max_retries backoff
              parent_file_only catalog_enabled remove_parent cache v p hpv
            exact ⟨fun hm => hvu ((ht1 u fn2 hm).symm ▸ rfl),
              fun hm => hvu ((ht2 u fn2 hm).symm ▸ rfl)⟩
        constructor
        · intro hm
          rcases List.mem_append.mp hm with hm | hm
          · exact (hp fn).1 hm
          · exact ih1 hm
        · intro hm
          rcases List.mem_append.mp hm with hm | hm
          · exact (hp fn).2 hm
          · exact ih2 hm

/-- Claim C6: for a URL whose download fails on every one of the
`max_retries` attempts, the batch completes with that URL recorded as
`url\terror-text` in the failed-URL list (these lines are what gets
written one per line to the failed-URL file), no parent write and no
split write happens for that URL, and the URLs before and after it
contribute exactly what they would contribute in a batch of their own. -/
theorem claim_C6_failed_url_isolated (net : NetModel) (max_retries : ℕ) (backoff : ℚ)
    (parent_file_only catalog_enabled remove_parent : Bool)
    (cache : String → String → Option MergerLabels)
    (pre post : List String) (u : String)
    (hparse : ∀ v ∈ pre ++ u :: post, (parse_url v).isSome)
    (hmax : 1 ≤ max_retries)
    (hfail : ∀ n, 1 ≤ n → n ≤ max_retries → (net.attempt_err u n).isSome) :
    ∃ e rPre rPost,
      net.attempt_err u max_retries = some e
      ∧ run_batch net max_retries backoff parent_file_only catalog_enabled
          remove_parent cache pre = .ok rPre
      ∧ run_batch net max_retries backoff parent_file_only catalog_enabled
          remove_parent cache post = .ok rPost
      ∧ run_batch net max_retries backoff parent_file_only catalog_enabled
          remove_parent cache (pre ++ u :: post)
        = .ok (rPre.append
            (({ PipelineResult.empty with failed_urls := [u ++ "\t" ++ e] }).append rPost))
      ∧ ∀ fn,
          (u, fn) ∉ (rPre.append (({ PipelineResult.empty with
              failed_urls := [u ++ "\t" ++ e] }).append rPost)).parent_writes
          ∧ (u, fn) ∉ (rPre.append (({ PipelineResult.empty with
              failed_urls := [u ++ "\t" ++ e] }).append rPost)).split_writes := by
  have hpre : ∀ v ∈ pre, (parse_url v).isSome :=
    fun v hv => hparse v (by simp [hv])
  have hpost : ∀ v ∈ post, (parse_url v).isSome :=
    fun v hv => hparse v (by simp [hv])
  have hu : (parse_url u).isSome := hparse u (by simp)
  obtain ⟨rPre, hrPre⟩ := run_batch_ok_of_parse net max_retries backoff parent_file_only
    catalog_enabled remove_parent cache pre hpre
  obtain ⟨rPost, hrPost⟩ := run_batch_ok_of_parse net max_retries backoff parent_file_only
    catalog_enabled remove_parent cache post hpost
  obtain ⟨e, he, hpu⟩ := process_url_download_failed net max_retries backoff
    parent_file_only catalog_enabled remove_parent cache u hu hmax hfail
  have hmid : run_batch net max_retries backoff parent_file_only catalog_enabled
      remove_parent cache (u :: post)
      = .ok (({ PipelineResult.empty with failed_urls := [u ++ "\t" ++ e] }).append rPost) := by
    rw [run_batch, hpu, hrPost]
  have hall : run_batch net max_retries backoff parent_file_only catalog_enabled
      remove_parent cache (pre ++ u :: post)
      = .ok (rPre.append
          (({ PipelineResult.empty with failed_urls := [u ++ "\t" ++ e] }).append rPost)) :=
    run_batch_append net max_retries backoff parent_file_only catalog_enabled remove_parent
      cache pre (u :: post) rPre _ hrPre hmid
  refine ⟨e, rPre, rPost, he, hrPre, hrPost, hall, ?_⟩
  intro fn
  exact run_batch_no_writes_for_url net max_retries backoff parent_file_only
    catalog_enabled remove_parent cache u hfail (pre ++ u :: post) _ hall fn

/-- Witness for claim C6: a three-URL batch whose middle URL fails all
three attempts with error `boom`; the parse hypothesis, retry bound and
failure hypothesis are discharged concretely. -/
theorem claim_C6_failed_url_isolated_witness :
    (∀ v ∈ (["http://x/api/TNG50-1/snapshots/72/subhalos/3/skirt/f_v2.fits"]
        ++ "http://x/api/TNG50-1/snapshots/72/subhalos/4/skirt/f_v2.fits"
          :: ["http://x/api/TNG50-1/snapshots/72/subhalos/5/skirt/f_v2.fits"]),
      (parse_url v).isSome)
  ∧ (1 : ℕ) ≤ 3
  ∧ (∀ n, 1 ≤ n → n ≤ 3 →
      ((fun u a => if u = "http://x/api/TNG50-1/snapshots/72/subhalos/4/skirt/f_v2.fits"
          then some "boom" else none : String → ℕ → Option String)
        "http://x/api/TNG50-1/snapshots/72/subhalos/4/skirt/f_v2.fits" n).isSome)
  ∧ ∃ e rPre rPost,
      (fun u a => if u = "http://x/api/TNG50-1/snapshots/72/subhalos/4/skirt/f_v2.fits"
          then some "boom" else none : String → ℕ → Option String)
        "http://x/api/TNG50-1/snapshots/72/subhalos/4/skirt/f_v2.fits" 3 = some e
      ∧ run_batch ⟨(fun u a => if u = "http://x/api/TNG50-1/snapshots/72/subhalos/4/skirt/f_v2.fits"
            then some "boom" else none), (fun _ => ["SUBARU_HSC.G"]), (fun _ => none)⟩
          3 2 false true true (fun _ _ => none)
          ["http://x/api/TNG50-1/snapshots/72/subhalos/3/skirt/f_v2.fits"] = .ok rPre
      ∧ run_batch ⟨(fun u a => if u = "http://x/api/TNG50-1/snapshots/72/subhalos/4/skirt/f_v2.fits"
            then some "boom" else none), (fun _ => ["SUBARU_HSC.G"]), (fun _ => none)⟩
          3 2 false true true (fun _ _ => none)
          ["http://x/api/TNG50-1/snapshots/72/subhalos/5/skirt/f_v2.fits"] = .ok rPost
      ∧ run_batch ⟨(fun u a => if u = "http://x/api/TNG50-1/snapshots/72/subhalos/4/skirt/f_v2.fits"
            then some "boom" else none), (fun _ => ["SUBARU_HSC.G"]), (fun _ => none)⟩
          3 2 false true true (fun _ _ => none)
          (["http://x/api/TNG50-1/snapshots/72/subhalos/3/skirt/f_v2.fits"]
            ++ "http://x/api/TNG50-1/snapshots/72/subhalos/4/skirt/f_v2.fits"
              :: ["http://x/api/TNG50-1/snapshots/72/subhalos/5/skirt/f_v2.fits"])
        = .ok (rPre.append (({ PipelineResult.empty with
            failed_urls := ["http://x/api/TNG50-1/snapshots/72/subhalos/4/skirt/f_v2.fits"
              ++ "\t" ++ e] }).append rPost))
      ∧ ∀ fn,
          ("http://x/api/TNG50-1/snapshots/72/subhalos/4/skirt/f_v2.fits", fn)
              ∉ (rPre.append (({ PipelineResult.empty with
                failed_urls := ["http://x/api/TNG50-1/snapshots/72/subhalos/4/skirt/f_v2.fits"
                  ++ "\t" ++ e] }).append rPost)).parent_writes
          ∧ ("http://x/api/TNG50-1/snapshots/72/subhalos/4/skirt/f_v2.fits", fn)
              ∉ (rPre.append (({ PipelineResult.empty with
                failed_urls := ["http://x/api/TNG50-1/snapshots/72/subhalos/4/skirt/f_v2.fits"
                  ++ "\t" ++ e] }).append rPost)).split_writes := by
  have hparse : ∀ v ∈ (["http://x/api/TNG50-1/snapshots/72/subhalos/3/skirt/f_v2.fits"]
      ++ "http://x/api/TNG50-1/snapshots/72/subhalos/4/skirt/f_v2.fits"
        :: ["http://x/api/TNG50-1/snapshots/72/subhalos/5/skirt/f_v2.fits"]),
      (parse_url v).isSome := by
    intro v hv
    fin_cases hv <;> decide
  have hmax : (1 : ℕ) ≤ 3 := by omega
  have hfail : ∀ n, 1 ≤ n → n ≤ 3 →
      ((fun u a => if u = "http://x/api/TNG50-1/snapshots/72/subhalos/4/skirt/f_v2.fits"
          then some "boom" else none : String → ℕ → Option String)
        "http://x/api/TNG50-1/snapshots/72/subhalos/4/skirt/f_v2.fits" n).isSome := by
    intro n _ _
    simp
  exact ⟨hparse, hmax, hfail,
    claim_C6_failed_url_isolated
      ⟨(fun u a => if u = "http://x/api/TNG50-1/snapshots/72/subhalos/4/skirt/f_v2.fits"
          then some "boom" else none), (fun _ => ["SUBARU_HSC.G"]), (fun _ => none)⟩
      3 2 false true true (fun _ _ => none)
      ["http://x/api/TNG50-1/snapshots/72/subhalos/3/skirt/f_v2.fits"]
      ["http://x/api/TNG50-1/snapshots/72/subhalos/5/skirt/f_v2.fits"]
      "http://x/api/TNG50-1/snapshots/72/subhalos/4/skirt/f_v2.fits"
      hparse hmax hfail⟩

/-! ## Claim C10: batch selection from the URL-list file
(split.py lines 552-559) -/

/-- Python `str.strip()`: drop whitespace from both ends. -/
def pyStrip (s : String) : String :=
  ⟨((s.data.dropWhile Char.isWhitespace).reverse.dropWhile Char.isWhitespace).reverse⟩

/-- `urls = [u.strip() for u in f if u.strip()]`: each line stripped,
blank (empty-after-strip) lines dropped. -/
def load_urls (lines : List String) : List String :=
  (lines.map pyStrip).filter (fun u => decide (u ≠ ""))

/-- Python list slicing `l[start:stop]` (step 1): negative indices
count from the end, then both bounds are clamped to `[0, len]`. -/
def pySlice {α : Type} (l : List α) (start stop : ℤ) : List α :=
  let n : ℤ := l.length
  let s := if start < 0 then max (n + start) 0 else min start n
  let e := if stop < 0 then max (n + stop) 0 else min stop n
  (l.take e.toNat).drop s.toNat

/-- The batch selection of `download_and_split_hsc_images`: a missing
`BATCH_START` defaults to 0, a missing `BATCH_SIZE` defaults to
`max(len(urls) - BATCH_START, 0)`, and the batch is
`urls[BATCH_START : BATCH_START + BATCH_SIZE]`. -/
def select_batch (lines : List String) (batch_start batch_size : Option ℤ) : List String :=
  let urls := load_urls lines
  let s := batch_start.getD 0
  let z := batch_size.getD (max ((urls.length : ℤ) - s) 0)
  pySlice urls s (s + z)

theorem pySlice_empty_of_ge {α : Type} (l : List α) (s stop : ℤ)
    (hs : (l.length : ℤ) ≤ s) : pySlice l s stop = [] := by
  unfold pySlice
  have hn : (0 : ℤ) ≤ (l.length : ℤ) := Int.natCast_nonneg _
  have hsnn : ¬ s < 0 := by omega
  simp only [if_neg hsnn]
  have hmin : min s (l.length : ℤ) = (l.length : ℤ) := by omega
  rw [hmin]
  apply List.drop_eq_nil_of_le
  calc (l.take (if stop < 0 then max ((l.length : ℤ) + stop) 0
        else min stop (l.length : ℤ)).toNat).length
      ≤ l.length := by
        rw [List.length_take]
        omega
    _ = ((l.length : ℤ)).toNat := by simp

theorem pySlice_drop_of_nonneg {α : Type} (l : List α) (s : ℤ) (hs : 0 ≤ s) :
    pySlice l s (s + max ((l.length : ℤ) - s) 0) = l.drop s.toNat := by
  unfold pySlice
  have hn : (0 : ℤ) ≤ (l.length : ℤ) := Int.natCast_nonneg _
  have hsnn : ¬ s < 0 := by omega
  simp only [if_neg hsnn]
  by_cases hcase : s ≤ (l.length : ℤ)
  · have hstop : s + max ((l.length : ℤ) - s) 0 = (l.length : ℤ) := by omega
    rw [hstop, if_neg (by omega : ¬ (l.length : ℤ) < 0), min_self,
      (by omega : min s (l.length : ℤ) = s)]
    have : ((l.length : ℤ)).toNat = l.length := by simp
    rw [this, List.take_length]
  · have hstop : s + max ((l.length : ℤ) - s) 0 = s := by omega
    rw [hstop, if_neg hsnn, (by omega : min s (l.length : ℤ) = (l.length : ℤ))]
    have hlen : ((l.length : ℤ)).toNat = l.length := by simp
    rw [hlen, List.take_length, List.drop_eq_nil_of_le (le_refl _),
      List.drop_eq_nil_of_le (by omega : l.length ≤ s.toNat)]

theorem mem_pySlice {α : Type} (l : List α) (s stop : ℤ) (x : α)
    (h : x ∈ pySlice l s stop) : x ∈ l := by
  unfold pySlice at h
  exact List.take_subset _ l (List.mem_of_mem_drop h)

/-- Claim C10: batch selection is total.  Lines are stripped and blank
lines dropped (every batch URL is the strip of some input line and is
non-empty); a missing `BATCH_START` defaults to 0; a missing
`BATCH_SIZE` defaults to all remaining URLs clamped to at least 0 (for
a non-negative start the batch is exactly the URLs from the start
index); and for every `BATCH_START` at or beyond the number of URLs the
batch is empty and the pipeline completes without error and without any
per-URL work. -/
theorem claim_C10_batch_selection_total (lines : List String) (bz : Option ℤ) (s : ℤ)
    (net : NetModel) (max_retries : ℕ) (backoff : ℚ)
    (parent_file_only catalog_enabled remove_parent : Bool)
    (cache : String → String → Option MergerLabels) :
    (select_batch lines none bz = select_batch lines (some 0) bz)
  ∧ (0 ≤ s → select_batch lines (some s) none = (load_urls lines).drop s.toNat)
  ∧ (((load_urls lines).length : ℤ) ≤ s →
      select_batch lines (some s) bz = []
      ∧ run_batch net max_retries backoff parent_file_only catalog_enabled remove_parent
          cache (select_batch lines (some s) bz) = .ok PipelineResult.empty)
  ∧ (∀ u ∈ select_batch lines (some s) bz,
      u ≠ "" ∧ ∃ line ∈ lines, u = pyStrip line) := by
  refine ⟨rfl, ?_, ?_, ?_⟩
  · intro hs
    unfold select_batch
    exact pySlice_drop_of_nonneg (load_urls lines) s hs
  · intro hs
    have hempty : select_batch lines (some s) bz = [] := by
      unfold select_batch
      exact pySlice_empty_of_ge _ _ _ hs
    exact ⟨hempty, by rw [hempty]; rfl⟩
  · intro u hu
    have humem : u ∈ load_urls lines := by
      unfold select_batch at hu
      exact mem_pySlice _ _ _ u hu
    unfold load_urls at humem
    rw [List.mem_filter] at humem
    obtain ⟨hmap, hne⟩ := humem
    obtain ⟨line, hline, hu2⟩ := List.mem_map.mp hmap
    exact ⟨by simpa using hne, line, hline, hu2.symm⟩

/-- Witness for claim C10: three raw lines (one needing a strip, one
blank) with a start index beyond the two surviving URLs. -/
theorem claim_C10_batch_selection_total_witness :
    (0 : ℤ) ≤ 5
  ∧ ((load_urls [" a ", "", "b"]).length : ℤ) ≤ 5
  ∧ select_batch [" a ", "", "b"] (some 5) none = (load_urls [" a ", "", "b"]).drop (5 : ℤ).toNat
  ∧ select_batch [" a ", "", "b"] (some 5) none = []
  ∧ run_batch ⟨(fun _ _ => none), (fun _ => []), (fun _ => none)⟩ 3 2 false true true
      (fun _ _ => none) (select_batch [" a ", "", "b"] (some 5) none) = .ok PipelineResult.empty := by
  have h5 : (0 : ℤ) ≤ 5 := by omega
  have hlen : ((load_urls [" a ", "", "b"]).length : ℤ) ≤ 5 := by decide
  obtain ⟨-, h2, h3, -⟩ := claim_C10_batch_selection_total [" a ", "", "b"] none 5
    ⟨(fun _ _ => none), (fun _ => []), (fun _ => none)⟩ 3 2 false true true (fun _ _ => none)
  exact ⟨h5, hlen, h2 h5, (h3 hlen).1, (h3 hlen).2⟩
